import Mathlib

/-!
Verification of the game-session core of the irc-cah repository
(`app/controllers/game.js`, `app/models/player.js`).

The session state machine of `game.js` is embedded shallowly: the mutable
`Game` object becomes the `GameState` structure, every operation becomes a
pure function from `GameState` to `GameState` (wrapped in `Option` where the
JavaScript would throw a `TypeError` or hit the fatal empty-deck condition,
and paired with a `Bool` where the source signals acceptance/rejection).
Wall-clock reads (`new Date()`) become explicit `Int` millisecond arguments,
the two uses of randomness (`shuffle`, `Math.random`-picked indices) become
explicit function/index parameters, and IRC output (`say` / `pm`) is logged
in the `msgs` field as structured `Msg` values.

The card container (`app/controllers/cards.js`) is not among the provided
sources; its operations (`pickCards` on a hand, draw-one on a pool,
`reset`, `addCard`) are modelled from spec §4.1/§4.2 where noted.
-/

namespace CAH

/-- Game lifecycle states (game.js:12-20). -/
inductive GState
  | Stopped | Started | Playable | Played | RoundEnd | Waiting | Paused
deriving DecidableEq

/-- Outbound IRC traffic. Each constructor stands for one `say`/`pm` call site
in game.js; the literal channel text and formatting are outside the core. -/
inductive Msg
  | gamePaused                             -- game.js:367, 417, 579
  | cantPlay (nick : String)               -- game.js:375
  | czarCannotPlay (nick : String)         -- game.js:378
  | alreadyPlayed (nick : String)          -- game.js:381
  | mustPickCount (nick : String) (n : Nat)  -- game.js:384
  | invalidIndex (nick : String)           -- game.js:392, 447
  | youPlayed (nick : String)              -- game.js:398
  | cantDiscard (nick : String)            -- game.js:425
  | czarCannotDiscard (nick : String)      -- game.js:428
  | onlyDiscardOnce (nick : String)        -- game.js:431
  | needPointToDiscard (nick : String)     -- game.js:433
  | youDiscarded (nick : String) (ptsLeft : Nat)  -- game.js:463
  | cardsShown (nick : String)             -- showCards, game.js:767-782
  | notCzar                                -- game.js:589
  | invalidWinner                          -- game.js:591
  | winnerAnnounced (nick : String) (pts : Nat)  -- game.js:599
  | noOnePlayed                            -- game.js:512
  | onlyOnePlayed                          -- game.js:517
  | entriesShown                           -- game.js:520-525
  | czarFled                               -- game.js:530, 733
  | selectWinnerPrompt                     -- game.js:533
  | timeUpWinner                           -- game.js:554
  | czarTimeWarning (secs : Nat)           -- game.js:559-568
  | removedInactive (nicks : List String)  -- game.js:313
  | leftGame (nick : String)               -- game.js:723
  | joinedGame (nick : String)             -- game.js:680
  | idleBanned (nick : String)             -- game.js:671
  | waitingForPlayers                      -- game.js:219
  | pointLimitWinner (nick : String)       -- game.js:210
  | gameStopped                            -- game.js:101-103
  | pointsShown                            -- showPoints, game.js:787-796
  | roundAnnounced (n : Nat) (czarNick : String)  -- game.js:230
  | cardAnnounced (value : String)         -- game.js:334
  | cardPmed (nick : String)               -- game.js:339
  | alreadyPausedMsg                       -- game.js:143
  | cannotPauseMsg                         -- game.js:149
  | nowPausedMsg                           -- game.js:159
  | notPausedMsg                           -- game.js:172
  | resumedMsg                             -- game.js:183
  | czarQuitDuringPause                    -- game.js:190
deriving DecidableEq

/-- A card (app/models/card.js, schema in config: value, pick, draw). The
mutable `owner` back-reference holds the owning player's id while the card is
in a hand or on the table (game.js sets it at deal time and clears it when a
card moves to a discard pile). Question cards use `pick`/`draw`; answer cards
carry both fields as 0. -/
structure Card where
  value : String
  pick  : Nat
  draw  : Nat
  owner : Option Nat
deriving DecidableEq

/-- A player (app/models/player.js:4-16). `id` models the `_.uniqueId` tag,
used for the object-identity comparisons of the source. `points` stays a
`Nat`: the only decrement (discard) is guarded by `points >= 1`.

`inactiveRounds` is `Option Nat` because the constructor never initializes
it: it is `undefined` (`none`) until the player's first successful play
sets it to 0 (game.js:397). Incrementing an `undefined` or `NaN` counter
(game.js:556, 759) yields `NaN`, and every later increment and the
`>= 1` comparison (game.js:305) keep behaving the same on `NaN` as on
`undefined`, so the single absorbing value `none` models both. -/
structure Player where
  id             : Nat
  nick           : String
  user           : String
  hostname       : String
  cards          : List Card
  hasPlayed      : Bool
  hasDiscarded   : Bool
  isCzar         : Bool
  points         : Nat
  inactiveRounds : Option Nat
deriving DecidableEq

/-- The check `player.inactiveRounds >= 1` (game.js:305): false on an
`undefined` or `NaN` counter, the numeric comparison otherwise. -/
def idleGE1 : Option Nat → Bool
  | some n => decide (1 ≤ n)
  | none => false

/-- One entry of the score ledger `self.points` (game.js:662-667):
nick, hostname, a reference to the player object (its id here), points. -/
structure PointsEntry where
  nick     : String
  hostname : String
  playerId : Nat
  points   : Nat
deriving DecidableEq

/-- The whole mutable state of a `Game` object (game.js:40-92).
`idleCounts` is the per-nick idle counter object; a missing key on which the
source would do `undefined++` (yielding NaN) is modelled by the key staying
absent. `roundStarted`/`pauseElapsed` are epoch milliseconds as `Int`.
`roundMinutes`, `idleLimit`, `pointLimit` are the configuration values read
by the operations. `msgs` is the log of outbound IRC messages. -/
structure GameState where
  state            : GState
  players          : List Player
  czarId           : Option Nat
  decksQuestion    : List Card
  decksAnswer      : List Card
  discardsQuestion : List Card
  discardsAnswer   : List Card
  tableQuestion    : Option Card
  tableAnswer      : List (List Card)
  points           : List PointsEntry
  idleCounts       : List (String × Nat)
  round            : Nat
  pointLimit       : Nat
  roundMinutes     : Nat
  idleLimit        : Nat
  roundStarted     : Int
  pauseElapsed     : Int
  pauseSaved       : GState
  msgs             : List Msg
deriving DecidableEq

/-- Append one outbound message (game.js `say`/`pm`, 965-975). -/
def say (g : GameState) (m : Msg) : GameState := { g with msgs := g.msgs ++ [m] }

/-- Forget the message log: two states are equal up to IRC output when their
`stripMsgs` agree. Used to state the no-side-effect properties. -/
def stripMsgs (g : GameState) : GameState := { g with msgs := [] }

/-- Look a player up by object identity (the source passes the object). -/
def findPlayer (g : GameState) (pid : Nat) : Option Player :=
  g.players.find? (fun p => decide (p.id = pid))

/-- Mutate the player object with the given id (object mutation in the
source; a no-op when the object is no longer in the roster, matching a
mutation of a detached object). -/
def mapPlayer (g : GameState) (pid : Nat) (f : Player → Player) : GameState :=
  { g with players := g.players.map (fun p => if p.id = pid then f p else p) }

/-- Underscore `_.uniq`: keep the first occurrence of each element. -/
def uniqAux (seen : List Nat) : List Nat → List Nat
  | [] => []
  | x :: xs => if x ∈ seen then uniqAux seen xs else x :: uniqAux (x :: seen) xs

/-- Array de-duplication as done by `_.uniq(cards)` (game.js:373, 422). -/
def uniqFirst (xs : List Nat) : List Nat := uniqAux [] xs

/-- Cards of `cs` (numbered from `i`) whose index does not occur in `ds`,
in their original relative order. -/
def keepNotIdx (ds : List Nat) : Nat → List Card → List Card
  | _, [] => []
  | i, c :: cs =>
    if i ∈ ds then keepNotIdx ds (i + 1) cs else c :: keepNotIdx ds (i + 1) cs

/-- Modelled from the spec: `Cards.pickCards(indexes)` of the missing
app/controllers/cards.js, as specified in §4.2 — de-duplicate the indices,
validate each is within `[0, size)`, fail otherwise (atomic: no removal on
failure), else return the picked cards (in index order) and the remaining
hand in its original relative order. -/
def pickCards (idxs : List Nat) (cs : List Card) : Option (List Card × List Card) :=
  let ds := uniqFirst idxs
  if ds.all (fun i => decide (i < cs.length)) then
    some (ds.filterMap (fun i => cs.get? i), keepNotIdx ds 0 cs)
  else
    none

/-- Value of `self.idleCounts[nick]`. -/
def lookupIdle (m : List (String × Nat)) (nick : String) : Option Nat :=
  (m.find? (fun e => decide (e.1 = nick))).map (·.2)

/-- `self.idleCounts[nick]++` (game.js:308): increments an existing key; a
missing key would become NaN in the source and stays absent here. -/
def bumpIdle (m : List (String × Nat)) (nick : String) : List (String × Nat) :=
  m.map (fun e => if e.1 = nick then (e.1, e.2 + 1) else e)

/-- `self.idleCounts[nick] = v` (game.js:668). -/
def setIdle (m : List (String × Nat)) (nick : String) (v : Nat) : List (String × Nat) :=
  if (m.find? (fun e => decide (e.1 = nick))).isSome then
    m.map (fun e => if e.1 = nick then (e.1, v) else e)
  else
    m ++ [(nick, v)]

/-- Update the first score-ledger entry whose `player` reference matches
(`_.findWhere(self.points, {player: owner}).points = ...`, game.js:597). -/
def updateLedgerPoints : List PointsEntry → Nat → Nat → List PointsEntry
  | [], _, _ => []
  | e :: es, oid, pts =>
    if e.playerId = oid then { e with points := pts } :: es
    else e :: updateLedgerPoints es oid pts

/-- Re-point the first ledger entry with the given identity at a new player
object (`pointsPlayer.player = player`, game.js:674). -/
def updateLedgerRef : List PointsEntry → String → String → Nat → List PointsEntry
  | [], _, _, _ => []
  | e :: es, n, h, pid =>
    if e.nick = n ∧ e.hostname = h then { e with playerId := pid } :: es
    else e :: updateLedgerRef es n h pid

/-- Points of the first ledger entry referencing the given player object. -/
def lookupLedger (es : List PointsEntry) (oid : Nat) : Option Nat :=
  (es.find? (fun e => decide (e.playerId = oid))).map (·.points)

/-- Players who still owe a play: have cards, have not played, and are not
the czar (`getNotPlayed`, game.js:746-751). -/
def getNotPlayed (g : GameState) : List Player :=
  (g.players.filter (fun p => decide (0 < p.cards.length))).filter
    (fun p => decide (p.hasPlayed = false ∧ p.isCzar = false))

/-- `checkAllPlayed` (game.js:626-632). -/
def checkAllPlayed (g : GameState) : Bool := (getNotPlayed g).length = 0

/-- `checkDecks` (game.js:637-650): an empty pool is reset from its paired
discard pile (which becomes empty) and reshuffled; `shuf` models the
shuffle. A non-empty pool is untouched. -/
def checkDecks (shuf : List Card → List Card) (g : GameState) : GameState :=
  let g :=
    if g.decksAnswer.length = 0 then
      { g with decksAnswer := shuf g.discardsAnswer, discardsAnswer := [] }
    else g
  if g.decksQuestion.length = 0 then
    { g with decksQuestion := shuf g.discardsQuestion, discardsQuestion := [] }
  else g

/-- Draw one answer card after ensuring pool non-emptiness
(`self.checkDecks(); self.decks.answer.pickCards()`, game.js:263-264).
Draw-one on a pool is modelled from spec §4.1: remove and return the head.
`none` is the fatal both-pool-and-discard-empty condition (spec §7). -/
def drawAnswer (shuf : List Card → List Card) (g : GameState) :
    Option (Card × GameState) :=
  let g := checkDecks shuf g
  match g.decksAnswer with
  | [] => none
  | c :: rest => some (c, { g with decksAnswer := rest })

/-- Deal `n` answer cards to the player: each iteration of the source loop
(game.js:262-267 / 271-276) checks the decks, draws one card, appends it to
the hand and sets its owner. -/
def dealN (shuf : List Card → List Card) (pid : Nat) :
    Nat → GameState → Option GameState
  | 0, g => some g
  | n + 1, g =>
    match drawAnswer shuf g with
    | none => none
    | some (c, g) =>
      dealN shuf pid n
        (mapPlayer g pid (fun p => { p with cards := p.cards ++ [{ c with owner := some pid }] }))

/-- `deal(player, num)` (game.js:269-277): top the hand up to `num` cards. -/
def fillHand (shuf : List Card → List Card) (pid target : Nat) (g : GameState) :
    Option GameState :=
  match findPlayer g pid with
  | none => some g
  | some p => dealN shuf pid (target - p.cards.length) g

/-- `deal()` with no argument (game.js:259-268): top every roster player's
hand up to 10 cards. -/
def deal (shuf : List Card → List Card) (g : GameState) : Option GameState :=
  (g.players.map (·.id)).foldlM (fun g pid => fillHand shuf pid 10 g) g

/-- `setCzar` (game.js:245-253):
`self.czar = self.players[self.players.indexOf(self.czar) + 1] || self.players[0]`.
`indexOf` on a missing/undefined czar gives -1, so position 0 is chosen; an
index one past the end falls back to position 0. The chosen player's
`isCzar` flag is set. `none` only on an empty roster (the source would fail
assigning `isCzar` on `undefined`). -/
def setCzar (g : GameState) : Option GameState :=
  let i : Int :=
    match g.czarId with
    | none => -1
    | some cid =>
      match g.players.findIdx? (fun p => decide (p.id = cid)) with
      | some k => (k : Int)
      | none => -1
  match (g.players.get? (i + 1).toNat).orElse (fun _ => g.players.get? 0) with
  | none => none
  | some cz =>
    some { g with
      czarId := some cz.id,
      players := g.players.map (fun p => if p.id = cz.id then { p with isCzar := true } else p) }

/-- `playQuestion` (game.js:322-357): ensure the question pool is non-empty,
draw the top question onto the table, announce it (channel + pm to each
non-czar player), deal each non-czar player the question's extra
draw-count, and stamp the round start time (`now`). -/
def playQuestion (shuf : List Card → List Card) (now : Int) (g : GameState) :
    Option GameState :=
  let g := checkDecks shuf g
  match g.decksQuestion with
  | [] => none
  | card :: rest =>
    let g := { g with decksQuestion := rest }
    let g := say g (.cardAnnounced card.value)
    let g := { g with tableQuestion := some card }
    let nonCzar := (g.players.filter (fun p => decide (p.isCzar = false))).map (·.id)
    let g := { g with
      msgs := g.msgs ++ (g.players.filter (fun p => decide (p.isCzar = false))).map
        (fun p => Msg.cardPmed p.nick) }
    let afterDraw :=
      if 0 < card.draw then
        nonCzar.foldlM (fun acc pid => dealN shuf pid card.draw acc) g
      else some g
    afterDraw.map (fun gd => { gd with roundStarted := now })

/-- `stop` (game.js:97-135). The source `delete`s the game-data properties
(players, round, decks, discards, table); deletion is modelled by emptying
them. `self.points` and `self.idleCounts` are not deleted and survive. -/
def stop (g : GameState) (stopper : Option String) (pointLimitReached : Bool) :
    GameState :=
  let stopMsg : List Msg :=
    match stopper with
    | some _ => [.gameStopped]
    | none => if pointLimitReached = true then [] else [.gameStopped]
  let pointsMsg : List Msg := if 1 < g.round then [.pointsShown] else []
  { g with state := GState.Stopped,
           msgs := g.msgs ++ stopMsg ++ pointsMsg,
           players := [], round := 0,
           decksQuestion := [], decksAnswer := [],
           discardsQuestion := [], discardsAnswer := [],
           tableQuestion := none, tableAnswer := [] }

/-- `nextRound` (game.js:204-239): stop when a player holds exactly the
configured point limit; wait when fewer than 3 players; otherwise advance
the round counter, rotate the czar, deal, reveal a question, show hands to
non-czar players and become Playable. `now` models the wall clock at the
question reveal. -/
def nextRound (shuf : List Card → List Card) (now : Int) (g : GameState) :
    Option GameState :=
  if 0 < g.pointLimit ∧ (g.players.find? (fun p => decide (p.points = g.pointLimit))).isSome then
    let w := (g.players.find? (fun p => decide (p.points = g.pointLimit))).map (·.nick)
    some (stop (say g (.pointLimitWinner (w.getD ""))) none true)
  else if g.players.length < 3 then
    some { (say g .waitingForPlayers) with state := GState.Waiting }
  else
    let g0 := { g with round := g.round + 1 }
    match setCzar g0 with
    | none => none
    | some g1 =>
      match deal shuf g1 with
      | none => none
      | some g2 =>
        let g3 := say g2 (.roundAnnounced g2.round
          (((g2.czarId.bind (findPlayer g2 ·)).map (·.nick)).getD ""))
        match playQuestion shuf now g3 with
        | none => none
        | some g4 =>
          let shown : List Msg :=
            (g4.players.filter (fun p => decide (p.isCzar = false))).map
              (fun p => Msg.cardsShown p.nick)
          let g5 := { g4 with msgs := g4.msgs ++ shown }
          some { g5 with state := GState.Playable }

/-- `clean` (game.js:284-317): move the table question and every table
answer card (owner cleared) to the discard piles, empty the table, reset
every roster player's per-round flags, remove every player whose
`inactiveRounds >= 1` and bump that nick's idle counter, announce the
removed nicks, and return to `Started`.

The removal calls `removePlayer(player, {silent: true})` (game.js:709-740);
that call is inlined here: the player's hand moves to the answer discard
pile, the player leaves the roster, and no leave announcement is made. Of
`removePlayer`'s re-entries, the `checkAllPlayed` one is dead during clean
(the state is `Played` or `RoundEnd` at both call sites, never `Playable`),
and the czar-left re-entry into `selectWinner` (game.js:732-735) can only
print the czar-fled and Invalid-winner messages, because the table was
emptied above — both messages are reproduced below.

The loop iterates over the roster array captured before any removal
(`_.each(self.players, ...)` iterates the original array: `removePlayer`
reassigns `self.players` via `_.without` and does not mutate the iterated
array), so every idle player is visited. -/
def clean (g : GameState) : GameState :=
  let tableCards : List Card :=
    g.tableAnswer.flatten.map (fun c => { c with owner := none })
  let g1 : GameState := { g with
    discardsQuestion := g.discardsQuestion ++ g.tableQuestion.toList,
    tableQuestion := none,
    discardsAnswer := g.discardsAnswer ++ tableCards,
    tableAnswer := ([] : List (List Card)) }
  let removed : List Player :=
    g1.players.filter (fun p => idleGE1 p.inactiveRounds)
  let kept : List Player :=
    (g1.players.filter (fun p => ! idleGE1 p.inactiveRounds)).map
      (fun p => { p with hasPlayed := false, hasDiscarded := false, isCzar := false })
  let reentryMsgs : List Msg :=
    removed.flatMap (fun p =>
      if g1.state = GState.Played ∧ g1.czarId = some p.id then
        [Msg.czarFled, Msg.invalidWinner]
      else [])
  let removalMsgs : List Msg :=
    if removed.length = 0 then [] else [Msg.removedInactive (removed.map (·.nick))]
  let g2 : GameState := { g1 with
    players := kept,
    discardsAnswer := g1.discardsAnswer ++ removed.flatMap (·.cards),
    idleCounts := removed.foldl (fun m p => bumpIdle m p.nick) g1.idleCounts,
    msgs := g1.msgs ++ reentryMsgs ++ removalMsgs }
  { g2 with state := GState.Started }

/-- The award step of the winner-selection success path (game.js:593-600):
enter `RoundEnd`, add one point to the owning player's roster object,
synchronize the ledger entry referencing that player, and announce the
winner. -/
def awardWinner (oid newPts : Nat) (ownerNick : String) (g : GameState) :
    GameState :=
  let g1 : GameState := { g with state := GState.RoundEnd }
  let g2 := mapPlayer g1 oid (fun p => { p with points := p.points + 1 })
  let g3 : GameState := { g2 with points := updateLedgerPoints g2.points oid newPts }
  say g3 (.winnerAnnounced ownerNick newPts)

/-- `selectWinner(index, player)` (game.js:576-606). `caller = none` models
the internal/automatic calls (the source passes no `player`). Rejected
while paused; outside `Played` the call silently does nothing; a caller
other than the czar is rejected; a missing table index is rejected as an
invalid winner. Otherwise the state becomes `RoundEnd`, the owner of the
winning group (the first card's `owner` back-reference) gains a point, the
ledger entry referencing that player is synchronized, the winner is
announced, and `clean` plus `nextRound` run. The `Bool` is true exactly on
this success path. `none` models the `TypeError`s the source would throw:
an empty winning group, a cleared owner, an owner without a ledger entry,
or an owner object no longer in the roster (the source would mutate the
detached object through the alias, which this embedding does not track). -/
def selectWinner (shuf : List Card → List Card) (now : Int) (index : Nat)
    (caller : Option Nat) (g : GameState) : Option (GameState × Bool) :=
  if g.state = GState.Paused then
    some (say g .gamePaused, false)
  else
    let winner? := g.tableAnswer.get? index
    if g.state = GState.Played then
      if caller.isSome ∧ caller ≠ g.czarId then
        some (say g .notCzar, false)
      else
        match winner? with
        | none => some (say g .invalidWinner, false)
        | some grp =>
          let g1 : GameState := { g with state := GState.RoundEnd }
          match grp.head? with
          | none => none
          | some c0 =>
            match c0.owner with
            | none => none
            | some oid =>
              match findPlayer g1 oid with
              | none => none
              | some owner =>
                let newPts := owner.points + 1
                if (g.points.find? (fun e => decide (e.playerId = oid))).isSome then
                  (nextRound shuf now (clean (awardWinner oid newPts owner.nick g))).map
                    (fun g5 => (g5, true))
                else none
    else
      some (g, false)

/-- `showEntries` (game.js:505-540): enter `Played`; with no entry, clean
up and start the next round; with one entry, that entry wins by default;
otherwise shuffle the entries (`shufG`), display them, and either prompt
the czar (restarting the selection clock at `now`) or — if no roster
player carries the czar flag — auto-pick the entry at the random index
`ridx`. -/
def showEntries (shuf : List Card → List Card)
    (shufG : List (List Card) → List (List Card)) (ridx : Nat) (now : Int)
    (g : GameState) : Option GameState :=
  let g1 : GameState := { g with state := GState.Played }
  if g1.tableAnswer.length = 0 then
    nextRound shuf now (clean (say g1 .noOnePlayed))
  else if g1.tableAnswer.length = 1 then
    (selectWinner shuf now 0 none (say g1 .onlyOnePlayed)).map (·.1)
  else
    let g2 : GameState :=
      { (say g1 .entriesShown) with tableAnswer := shufG g1.tableAnswer }
    if (g2.players.find? (fun p => p.isCzar)).isNone then
      (selectWinner shuf now ridx none (say g2 .czarFled)).map (·.1)
    else
      some { (say g2 .selectWinnerPrompt) with roundStarted := now }

/-- `removePlayer(player, options)` (game.js:709-740): empty the leaver's
hand into the answer discard pile (owner references untouched), drop the
player from the roster, announce unless `options.silent`, then re-enter:
reveal the entries when everyone remaining has now played, or auto-pick a
winner when the leaver was the czar during `Played`. -/
def removePlayer (shuf : List Card → List Card)
    (shufG : List (List Card) → List (List Card)) (ridx : Nat) (now : Int)
    (pid : Nat) (silent : Bool) (g : GameState) : Option GameState :=
  match findPlayer g pid with
  | none => some g
  | some player =>
    let g1 : GameState := { g with
      players := g.players.filter (fun q => decide (q.id ≠ pid)),
      discardsAnswer := g.discardsAnswer ++ player.cards }
    let g2 := if silent then g1 else say g1 (.leftGame player.nick)
    if g2.state = GState.Playable ∧ checkAllPlayed g2 = true then
      showEntries shuf shufG ridx now g2
    else if g2.state = GState.Played ∧ g2.czarId = some pid then
      (selectWinner shuf now ridx none (say g2 .czarFled)).map (·.1)
    else
      some g2

/-- The state reached by an accepted play (game.js:394-399): the picked
cards leave the hand and land on the table as one group, the player is
flagged as having played with the inactivity counter reset, and the play
is acknowledged. -/
def playResult (pid : Nat) (player : Player) (picked rest : List Card)
    (g : GameState) : GameState :=
  say { g with
    players := g.players.map (fun p =>
      if p.id = pid then
        { p with cards := rest, hasPlayed := true, inactiveRounds := some 0 }
      else p),
    tableAnswer := g.tableAnswer ++ [picked] } (.youPlayed player.nick)

/-- `playCard(cards, player)` (game.js:364-408). Rejected while paused; the
index list is de-duplicated; rejected outside `Playable` or with an empty
hand, for the czar, for a repeat play, and on a pick-count mismatch; an
invalid index aborts with no state change. On success the picked group
moves onto the table, the player is flagged as having played with the
inactivity counter reset, and — when this completes the set of awaited
players — `showEntries` runs. The `Bool` is true exactly on the success
path. `none` models the `TypeError` of reading `pick` with no active
question (and any failure inside the `showEntries` continuation). -/
def playCard (shuf : List Card → List Card)
    (shufG : List (List Card) → List (List Card)) (ridx : Nat) (now : Int)
    (cs : List Nat) (pid : Nat) (g : GameState) : Option (GameState × Bool) :=
  if g.state = GState.Paused then
    some (say g .gamePaused, false)
  else
    let ds := uniqFirst cs
    match findPlayer g pid with
    | none => some (g, false)
    | some player =>
      if g.state ≠ GState.Playable ∨ player.cards.length = 0 then
        some (say g (.cantPlay player.nick), false)
      else if player.isCzar = true then
        some (say g (.czarCannotPlay player.nick), false)
      else if player.hasPlayed = true then
        some (say g (.alreadyPlayed player.nick), false)
      else
        match g.tableQuestion with
        | none => none
        | some q =>
          if ds.length ≠ q.pick then
            some (say g (.mustPickCount player.nick q.pick), false)
          else
            match pickCards ds player.cards with
            | none => some (say g (.invalidIndex player.nick), false)
            | some (picked, rest) =>
              let g2 := playResult pid player picked rest g
              if checkAllPlayed g2 = true then
                (showEntries shuf shufG ridx now g2).map (fun g3 => (g3, true))
              else
                some (g2, true)

/-- `discard(cards, player)` (game.js:415-471). Rejected while paused; the
index list is de-duplicated; rejected outside `Playable` or with an empty
hand, for the czar, for a repeat discard this round, and below one point.
An empty index list means the whole hand. An invalid index aborts with no
state change. On success the hand is topped back up to its pre-discard
size, the removed cards go to the answer discard pile with owners
cleared, one point is deducted, the player is flagged as having
discarded, and the refreshed hand is shown. `none` is the fatal
deck-exhaustion case inside the compensating deal. -/
def discard (shuf : List Card → List Card) (cs : List Nat) (pid : Nat)
    (g : GameState) : Option (GameState × Bool) :=
  if g.state = GState.Paused then
    some (say g .gamePaused, false)
  else
    let ds := uniqFirst cs
    match findPlayer g pid with
    | none => some (g, false)
    | some player =>
      if g.state ≠ GState.Playable ∨ player.cards.length = 0 then
        some (say g (.cantDiscard player.nick), false)
      else if player.isCzar = true then
        some (say g (.czarCannotDiscard player.nick), false)
      else if player.hasDiscarded = true then
        some (say g (.onlyDiscardOnce player.nick), false)
      else if player.points < 1 then
        some (say g (.needPointToDiscard player.nick), false)
      else
        let ds := if ds.length = 0 then List.range player.cards.length else ds
        match pickCards ds player.cards with
        | none => some (say g (.invalidIndex player.nick), false)
        | some (picked, rest) =>
          let g1 := mapPlayer g pid (fun p => { p with cards := rest })
          match fillHand shuf pid (rest.length + picked.length) g1 with
          | none => none
          | some g2 =>
            let g3 : GameState := { g2 with
              discardsAnswer := g2.discardsAnswer ++
                picked.map (fun c => { c with owner := none }) }
            let g4 := mapPlayer g3 pid
              (fun p => { p with hasDiscarded := true, points := p.points - 1 })
            let g5 := say (say g4 (.youDiscarded player.nick (player.points - 1)))
              (.cardsShown player.nick)
            some (g5, true)

/-- `addPlayer(player)` (game.js:657-692). A player whose nick and hostname
already appear in the roster is refused with no state change. A brand-new
identity gets a zero ledger entry and a zero idle count; a returning
identity is refused when its idle count has reached the configured idle
limit, and otherwise re-attaches to its ledger entry (the entry points at
the new object, the object inherits the banked points). The joiner is
appended to the roster and announced; when the session was waiting and the
roster reaches three, `nextRound` runs immediately. -/
def addPlayer (shuf : List Card → List Card) (now : Int) (p : Player)
    (g : GameState) : Option (GameState × Bool) :=
  if (g.players.find? (fun q => decide (q.nick = p.nick ∧ q.hostname = p.hostname))).isNone then
    match g.points.find? (fun e => decide (e.nick = p.nick ∧ e.hostname = p.hostname)) with
    | none =>
      let g1 : GameState := { g with
        points := g.points ++ [⟨p.nick, p.hostname, p.id, 0⟩],
        idleCounts := setIdle g.idleCounts p.nick 0 }
      let g2 : GameState := say { g1 with players := g1.players ++ [p] } (.joinedGame p.nick)
      if g2.state = GState.Waiting ∧ 3 ≤ g2.players.length then
        (nextRound shuf now g2).map (fun g3 => (g3, true))
      else
        some (g2, true)
    | some e =>
      let banned : Bool :=
        match lookupIdle g.idleCounts p.nick with
        | some n => decide (g.idleLimit ≤ n)
        | none => false
      if banned = true then
        some (say g (.idleBanned p.nick), false)
      else
        let joiner : Player := { p with points := e.points }
        let g1 : GameState := { g with
          points := updateLedgerRef g.points p.nick p.hostname p.id }
        let g2 : GameState :=
          say { g1 with players := g1.players ++ [joiner] } (.joinedGame p.nick)
        if g2.state = GState.Waiting ∧ 3 ≤ g2.players.length then
          (nextRound shuf now g2).map (fun g3 => (g3, true))
        else
          some (g2, true)
  else
    some (g, false)

/-- `pause` (game.js:140-164): refuse when already paused or outside
`Playable`/`Played`; otherwise snapshot the current state and the elapsed
round time (`now` minus the round start) and enter `Paused`. -/
def pause (now : Int) (g : GameState) : GameState :=
  if g.state = GState.Paused then
    say g .alreadyPausedMsg
  else if g.state ≠ GState.Playable ∧ g.state ≠ GState.Played then
    say g .cannotPauseMsg
  else
    let g1 : GameState := { g with
      pauseSaved := g.state,
      pauseElapsed := now - g.roundStarted,
      state := GState.Paused }
    say g1 .nowPausedMsg

/-- Is the czar object still in the roster
(`self.players.indexOf(self.czar) < 0` test of game.js:188)? -/
def czarPresent (g : GameState) : Bool :=
  match g.czarId with
  | none => false
  | some cid => (g.players.findIdx? (fun p => decide (p.id = cid))).isSome

/-- `resume` (game.js:169-199): refuse when not paused; otherwise shift the
round-start timestamp so that `now - roundStarted` equals the snapshotted
elapsed time, restore the snapshotted state and re-arm the matching timer.
When resuming into `Played` with the czar gone, announce and auto-pick the
winner at the random index `ridx`. -/
def resume (shuf : List Card → List Card) (now : Int) (ridx : Nat)
    (g : GameState) : Option GameState :=
  if g.state ≠ GState.Paused then
    some (say g .notPausedMsg)
  else
    let g1 : GameState := { g with
      roundStarted := now - g.pauseElapsed,
      state := g.pauseSaved }
    let g2 := say g1 .resumedMsg
    if g2.state = GState.Played then
      if czarPresent g2 = false then
        (selectWinner shuf now ridx none (say g2 .czarQuitDuringPause)).map (·.1)
      else
        some g2
    else
      some g2

/-- Guard of the forced action in `turnTimerCheck` (game.js:483) and
`winnerTimerCheck` (game.js:552): the terminal action (forced reveal,
forced winner pick) fires exactly when the elapsed wall-clock time since
`roundStarted` reaches the configured limit of `roundMinutes` minutes. -/
def turnTimerFires (now : Int) (g : GameState) : Bool :=
  decide (60 * 1000 * (g.roundMinutes : Int) ≤ now - g.roundStarted)

/-- The timer warning ladder shared by `turnTimerCheck` (game.js:489-499)
and `winnerTimerCheck` (game.js:559-568), reduced to its message effects. -/
def timerWarnings (g : GameState) (el tl : Int) : GameState :=
  if tl - 10 * 1000 ≤ el ∧ el < tl then say g (.czarTimeWarning 10)
  else if tl - 30 * 1000 ≤ el ∧ el < tl - 20 * 1000 then say g (.czarTimeWarning 30)
  else if tl - 60 * 1000 ≤ el ∧ el < tl - 50 * 1000 then say g (.czarTimeWarning 60)
  else g

/-- `winnerTimerCheck` (game.js:546-569): when the selection time limit has
elapsed, announce, increment the czar's `inactiveRounds`, and auto-select
the winner at the random index `index`; otherwise only emit the staged
warnings. `none` models the `TypeError` of touching an undefined czar. -/
def winnerTimerCheck (shuf : List Card → List Card) (now : Int) (index : Nat)
    (g : GameState) : Option GameState :=
  let timeLimit : Int := 60 * 1000 * (g.roundMinutes : Int)
  let roundElapsed : Int := now - g.roundStarted
  if timeLimit ≤ roundElapsed then
    match g.czarId with
    | none => none
    | some cid =>
      let g1 := say g .timeUpWinner
      let g2 := mapPlayer g1 cid (fun p => { p with inactiveRounds := p.inactiveRounds.map (fun n => n + 1) })
      (selectWinner shuf now index none g2).map (·.1)
  else
    some (timerWarnings g roundElapsed timeLimit)

/-! Definitions used by the proofs: projections of the player record,
frame relations describing which state components an operation may
touch, and small abbreviations for dealt cards. -/

/-- Every player field except the hand. -/
def shadow (p : Player) :
    Nat × String × String × String × Bool × Bool × Bool × Nat × Option Nat :=
  (p.id, p.nick, p.user, p.hostname, p.hasPlayed, p.hasDiscarded, p.isCzar,
   p.points, p.inactiveRounds)

/-- The player fields that survive a whole round transition: identity, score
and inactivity counter (the hand and the per-round flags may change). -/
def identCore (p : Player) : Nat × String × String × String × Nat × Option Nat :=
  (p.id, p.nick, p.user, p.hostname, p.points, p.inactiveRounds)

/-- Dealing touches only the pools, the piles, and hands: all other session
fields, and every player field except the hand, are framed. -/
def handFrame (g g' : GameState) : Prop :=
  g' = { g with
    decksQuestion := g'.decksQuestion, decksAnswer := g'.decksAnswer,
    discardsQuestion := g'.discardsQuestion, discardsAnswer := g'.discardsAnswer,
    players := g'.players } ∧
  g'.players.map shadow = g.players.map shadow

/-- The components `playQuestion` may touch: pools, piles, hands, the table
question, the message log and the round clock. Everything else, and every
player field except the hand, is framed. -/
def qFrame (g g' : GameState) : Prop :=
  g' = { g with
    decksQuestion := g'.decksQuestion, decksAnswer := g'.decksAnswer,
    discardsQuestion := g'.discardsQuestion, discardsAnswer := g'.discardsAnswer,
    players := g'.players, tableQuestion := g'.tableQuestion,
    roundStarted := g'.roundStarted, msgs := g'.msgs } ∧
  g'.players.map shadow = g.players.map shadow

/-- Append dealt cards to the hand of the player with the given id. -/
def giveCards (pid : Nat) (newCards : List Card) (ps : List Player) : List Player :=
  ps.map (fun p => if p.id = pid then { p with cards := p.cards ++ newCards } else p)

/-- Stamp a card with its new holder (`card.owner = player`, game.js:266). -/
def setOwner (pid : Nat) (c : Card) : Card := { c with owner := some pid }

/-- The session produced by a successful discard, spelled out: the hand is
replaced by the kept cards plus freshly dealt replacements, the picked
cards join the answer discard pile holder-free, and the player loses one
point and is flagged as having discarded. -/
def discardResult (pid : Nat) (player : Player) (picked rest : List Card)
    (g : GameState) : GameState :=
  let g1 := mapPlayer g pid (fun p => { p with cards := rest })
  let g2 : GameState := { g1 with
    decksAnswer := g1.decksAnswer.drop picked.length,
    players := giveCards pid ((g1.decksAnswer.take picked.length).map (setOwner pid)) g1.players }
  let g3 : GameState := { g2 with
    discardsAnswer := g2.discardsAnswer ++ picked.map (fun c => { c with owner := none }) }
  let g4 := mapPlayer g3 pid (fun p => { p with hasDiscarded := true, points := p.points - 1 })
  say (say g4 (.youDiscarded player.nick (player.points - 1))) (.cardsShown player.nick)


/-! Concrete fixtures: small sessions used to evaluate the operations on
explicit inputs (witnesses and counterexamples). -/

/-- An answer card. -/
def aCard (v : String) (o : Option Nat) : Card := ⟨v, 0, 0, o⟩

/-- A question card with the given pick-count (draw 0). -/
def qCard (v : String) (pk : Nat) : Card := ⟨v, pk, 0, none⟩

/-- A player fixture: a freshly constructed player has an uninitialized
inactivity counter. -/
def mkPlayer (i : Nat) (n : String) (cs : List Card) (czar played : Bool) : Player :=
  ⟨i, n, "user", "host", cs, played, false, czar, 0, none⟩

/-- A hand of `k` distinct answer cards owned by player `pid`. -/
def handOf (pid k : Nat) : List Card :=
  (List.range k).map (fun j => aCard (toString j) (some pid))

/-- An empty freshly-constructed session. -/
def baseG : GameState :=
  ⟨GState.Started, [], none, [], [], [], [], none, [], [], [], 0, 0, 10, 3, 0, 0,
   GState.Started, []⟩

/-- A `Played` session: czar `c` (id 0), players `a` (id 1) and `b` (id 2)
have each played one card; two entries are on the table. -/
def gPlayedW : GameState :=
  { baseG with
    state := GState.Played,
    players := [mkPlayer 0 "c" (handOf 0 10) true false,
                mkPlayer 1 "a" (handOf 1 10) false true,
                mkPlayer 2 "b" (handOf 2 10) false true],
    czarId := some 0,
    decksQuestion := [qCard "q2" 1],
    tableQuestion := some (qCard "q1" 1),
    tableAnswer := [[aCard "x" (some 1)], [aCard "y" (some 2)]],
    points := [⟨"c", "host", 0, 0⟩, ⟨"a", "host", 1, 0⟩, ⟨"b", "host", 2, 0⟩],
    idleCounts := [("c", 0), ("a", 0), ("b", 0)] }

/-- A `Playable` session derived from the same roster: nobody has played
yet, the table holds only the active question. -/
def gPlayableW : GameState :=
  { gPlayedW with
    state := GState.Playable,
    players := [mkPlayer 0 "c" (handOf 0 10) true false,
                mkPlayer 1 "a" (handOf 1 10) false false,
                mkPlayer 2 "b" (handOf 2 10) false false],
    tableAnswer := [] }

/-- Player `a` with two banked points and a full fresh hand. -/
def pDisc : Player :=
  { mkPlayer 1 "a" (handOf 1 10) false false with points := 2 }

/-- A `Playable` session in which `a` holds two points and the answer pool
offers two replacement cards. -/
def gDiscW : GameState :=
  { gPlayableW with
    players := [mkPlayer 0 "c" (handOf 0 10) true false, pDisc,
                mkPlayer 2 "b" (handOf 2 10) false false],
    decksAnswer := [aCard "n1" none, aCard "n2" none] }

/-- The cards at indexes 3 and 5 of the fixture hand. -/
def pickedW : List Card := [aCard "3" (some 1), aCard "5" (some 1)]

/-- The fixture hand with indexes 3 and 5 removed. -/
def restW : List Card :=
  [aCard "0" (some 1), aCard "1" (some 1), aCard "2" (some 1), aCard "4" (some 1),
   aCard "6" (some 1), aCard "7" (some 1), aCard "8" (some 1), aCard "9" (some 1)]

/-- The fixture hand with index 3 removed. -/
def restW3 : List Card :=
  [aCard "0" (some 1), aCard "1" (some 1), aCard "2" (some 1), aCard "4" (some 1),
   aCard "5" (some 1), aCard "6" (some 1), aCard "7" (some 1), aCard "8" (some 1),
   aCard "9" (some 1)]

/-- Player `a` after sitting out one full round. -/
def idleP : Player :=
  { mkPlayer 1 "a" (handOf 1 10) false true with inactiveRounds := some 1 }

/-- The `Played` session of `gPlayedW`, except that player `a` carries one
inactive round. -/
def gIdleW : GameState :=
  { gPlayedW with
    players := [mkPlayer 0 "c" (handOf 0 10) true false, idleP,
                mkPlayer 2 "b" (handOf 2 10) false true] }

/-- Czar `c` whose inactivity counter was initialized by an earlier
successful play. -/
def pCzarInit : Player :=
  { mkPlayer 0 "c" (handOf 0 10) true false with inactiveRounds := some 0 }

/-- The Played fixture with the czar's counter initialized. -/
def gCzarW : GameState :=
  { gPlayedW with
    players := [pCzarInit, mkPlayer 1 "a" (handOf 1 10) false true,
                mkPlayer 2 "b" (handOf 2 10) false true] }

/-- A session whose answer pool is exhausted while its discard pile holds
two cards. -/
def gDeckW : GameState :=
  { baseG with
    decksAnswer := [],
    discardsAnswer := [aCard "x" none, aCard "y" none],
    decksQuestion := [qCard "q" 1] }

/-! Helper lemmas about the hand/pool primitives. -/

theorem mem_uniqAux (x : Nat) :
    ∀ (xs seen : List Nat), x ∈ uniqAux seen xs ↔ (x ∈ xs ∧ x ∉ seen)
  | [], seen => by simp [uniqAux]
  | y :: ys, seen => by
    simp only [uniqAux]
    split
    · rename_i hy
      rw [mem_uniqAux x ys seen, List.mem_cons]
      constructor
      · rintro ⟨h1, h2⟩
        exact ⟨Or.inr h1, h2⟩
      · rintro ⟨h1 | h1, h2⟩
        · subst h1; exact absurd hy h2
        · exact ⟨h1, h2⟩
    · rename_i hy
      rw [List.mem_cons, List.mem_cons, mem_uniqAux x ys (y :: seen)]
      simp only [List.mem_cons]
      constructor
      · rintro (rfl | ⟨h1, h2⟩)
        · exact ⟨Or.inl rfl, hy⟩
        · exact ⟨Or.inr h1, fun h => h2 (Or.inr h)⟩
      · rintro ⟨rfl | h1, h2⟩
        · exact Or.inl rfl
        · by_cases hxy : x = y
          · exact Or.inl hxy
          · exact Or.inr ⟨h1, fun h => (h.elim hxy h2)⟩

theorem nodup_uniqAux : ∀ (xs seen : List Nat), (uniqAux seen xs).Nodup
  | [], _ => List.nodup_nil
  | y :: ys, seen => by
    simp only [uniqAux]
    split
    · exact nodup_uniqAux ys seen
    · refine List.nodup_cons.2 ⟨fun h => ?_, nodup_uniqAux ys (y :: seen)⟩
      exact ((mem_uniqAux y ys (y :: seen)).1 h).2 (List.mem_cons_self y seen)

theorem mem_uniqFirst (x : Nat) (xs : List Nat) : x ∈ uniqFirst xs ↔ x ∈ xs := by
  simp [uniqFirst, mem_uniqAux]

theorem nodup_uniqFirst (xs : List Nat) : (uniqFirst xs).Nodup :=
  nodup_uniqAux xs []

theorem filterMap_get?_length (cs : List Card) :
    ∀ ds : List Nat, (∀ i ∈ ds, i < cs.length) →
      (ds.filterMap (fun i => cs.get? i)).length = ds.length
  | [], _ => rfl
  | i :: is, h => by
    have hi : i < cs.length := h i (List.mem_cons_self i is)
    rw [List.filterMap_cons, List.get?_eq_get hi]
    simp only [List.length_cons]
    rw [filterMap_get?_length cs is (fun j hj => h j (List.mem_cons_of_mem i hj))]

theorem keepNotIdx_length (ds : List Nat) :
    ∀ (cs : List Card) (i : Nat),
      (keepNotIdx ds i cs).length =
        cs.length - ((List.range' i cs.length).filter (fun j => decide (j ∈ ds))).length
  | [], i => by simp [keepNotIdx]
  | c :: cs, i => by
    have hrec := keepNotIdx_length ds cs (i + 1)
    have hle : ((List.range' (i + 1) cs.length).filter (fun j => decide (j ∈ ds))).length
        ≤ cs.length := by
      calc ((List.range' (i + 1) cs.length).filter (fun j => decide (j ∈ ds))).length
          ≤ (List.range' (i + 1) cs.length).length := List.length_filter_le _ _
        _ = cs.length := List.length_range' _ _ _
    by_cases hmem : i ∈ ds
    · simp [keepNotIdx, List.range'_succ, List.filter_cons, hmem, hrec]
    · simp [keepNotIdx, List.range'_succ, List.filter_cons, hmem, hrec]
      omega

theorem filter_range_mem_length (ds : List Nat) (n : Nat) (hnd : ds.Nodup)
    (hub : ∀ i ∈ ds, i < n) :
    ((List.range' 0 n).filter (fun j => decide (j ∈ ds))).length = ds.length := by
  have hperm : ((List.range' 0 n).filter (fun j => decide (j ∈ ds))).Perm ds := by
    refine (List.perm_ext_iff_of_nodup (List.Nodup.filter _ (List.nodup_range' 0 n)) hnd).2 ?_
    intro a
    simp only [List.mem_filter, List.mem_range'_1, decide_eq_true_eq, Nat.zero_add,
      Nat.zero_le, true_and]
    constructor
    · rintro ⟨_, h⟩; exact h
    · intro h; exact ⟨hub a h, h⟩
  exact hperm.length_eq

/-- Atomicity bookkeeping for hand picks: a successful pick splits the hand
size exactly between the picked group and the remainder. -/
theorem pickCards_length {idxs : List Nat} {cs : List Card}
    {picked rest : List Card} (h : pickCards idxs cs = some (picked, rest)) :
    picked.length + rest.length = cs.length := by
  simp only [pickCards] at h
  split at h
  · rename_i hall
    simp only [Option.some.injEq, Prod.mk.injEq] at h
    obtain ⟨h1, h2⟩ := h
    subst h1; subst h2
    have hub : ∀ i ∈ uniqFirst idxs, i < cs.length := by
      intro i hi
      have := List.all_eq_true.1 hall i hi
      simpa using this
    rw [filterMap_get?_length cs (uniqFirst idxs) hub,
      keepNotIdx_length (uniqFirst idxs) cs 0,
      filter_range_mem_length (uniqFirst idxs) cs.length (nodup_uniqFirst idxs) hub]
    have : (uniqFirst idxs).length ≤ cs.length := by
      calc (uniqFirst idxs).length
          = ((List.range' 0 cs.length).filter (fun j => decide (j ∈ uniqFirst idxs))).length :=
            (filter_range_mem_length (uniqFirst idxs) cs.length (nodup_uniqFirst idxs) hub).symm
        _ ≤ (List.range' 0 cs.length).length := List.length_filter_le _ _
        _ = cs.length := List.length_range' _ _ _
    omega
  · exact absurd h (by simp)

/-! Frame lemmas: which state components each operation can touch. -/

theorem identCore_of_shadow {l l' : List Player}
    (h : l'.map shadow = l.map shadow) : l'.map identCore = l.map identCore := by
  have h2 := congrArg (List.map
    (fun t : Nat × String × String × String × Bool × Bool × Bool × Nat × Option Nat =>
      (t.1, t.2.1, t.2.2.1, t.2.2.2.1, t.2.2.2.2.2.2.2.1, t.2.2.2.2.2.2.2.2))) h
  rw [List.map_map, List.map_map] at h2
  exact h2

theorem handFrame_refl (g : GameState) : handFrame g g := ⟨rfl, rfl⟩

theorem handFrame_trans {g0 g1 g2 : GameState}
    (h1 : handFrame g0 g1) (h2 : handFrame g1 g2) : handFrame g0 g2 := by
  refine ⟨?_, h2.2.trans h1.2⟩
  conv_lhs => rw [h2.1, h1.1]

theorem checkDecks_handFrame (shuf : List Card → List Card) (g : GameState) :
    handFrame g (checkDecks shuf g) := by
  constructor
  · simp only [checkDecks]
    by_cases h1 : g.decksAnswer.length = 0 <;>
      by_cases h2 : g.decksQuestion.length = 0 <;> simp [h1, h2]
  · simp only [checkDecks]
    by_cases h1 : g.decksAnswer.length = 0 <;>
      by_cases h2 : g.decksQuestion.length = 0 <;> simp [h1, h2]

theorem drawAnswer_handFrame {shuf : List Card → List Card} {g : GameState}
    {c : Card} {g' : GameState} (h : drawAnswer shuf g = some (c, g')) :
    handFrame g g' := by
  simp only [drawAnswer] at h
  split at h
  · exact absurd h (by simp)
  · rename_i rest heq
    simp only [Option.some.injEq, Prod.mk.injEq] at h
    obtain ⟨-, h2⟩ := h
    subst h2
    exact handFrame_trans (checkDecks_handFrame shuf g) ⟨rfl, rfl⟩

theorem mapPlayer_handFrame (g : GameState) (pid : Nat) (f : Player → Player)
    (hf : ∀ p, shadow (f p) = shadow p) : handFrame g (mapPlayer g pid f) := by
  refine ⟨rfl, ?_⟩
  show (g.players.map fun p => if p.id = pid then f p else p).map shadow = _
  rw [List.map_map]
  refine List.map_congr_left (fun p _ => ?_)
  by_cases hp : p.id = pid <;> simp [hp, hf]

theorem dealN_handFrame (shuf : List Card → List Card) (pid : Nat) :
    ∀ (n : Nat) (g g' : GameState), dealN shuf pid n g = some g' → handFrame g g'
  | 0, g, g', h => by
    simp only [dealN, Option.some.injEq] at h
    subst h; exact handFrame_refl g
  | n + 1, g, g', h => by
    simp only [dealN] at h
    cases hd : drawAnswer shuf g with
    | none => rw [hd] at h; exact absurd h (by simp)
    | some cg =>
      rw [hd] at h
      obtain ⟨c, g1⟩ := cg
      refine handFrame_trans (drawAnswer_handFrame hd) (handFrame_trans ?_
        (dealN_handFrame shuf pid n _ g' h))
      exact mapPlayer_handFrame g1 pid _ (fun p => rfl)

theorem foldlM_handFrame {α : Type} (step : GameState → α → Option GameState)
    (hstep : ∀ g a g', step g a = some g' → handFrame g g') :
    ∀ (l : List α) (g g0 : GameState), l.foldlM step g = some g0 → handFrame g g0
  | [], g, g0, h => by
    simp only [List.foldlM_nil, Option.pure_def, Option.some.injEq] at h
    subst h; exact handFrame_refl g
  | a :: l, g, g0, h => by
    simp only [List.foldlM_cons] at h
    cases hs : step g a with
    | none => rw [hs] at h; exact absurd h (by simp)
    | some g1 =>
      rw [hs] at h
      simp only [Option.bind_eq_bind, Option.some_bind] at h
      exact handFrame_trans (hstep _ _ _ hs) (foldlM_handFrame step hstep l g1 g0 h)

theorem fillHand_handFrame {shuf : List Card → List Card} {pid target : Nat}
    {g g' : GameState} (h : fillHand shuf pid target g = some g') : handFrame g g' := by
  unfold fillHand at h
  split at h
  · simp only [Option.some.injEq] at h; subst h; exact handFrame_refl g
  · exact dealN_handFrame shuf pid _ g g' h

theorem deal_handFrame {shuf : List Card → List Card} {g g' : GameState}
    (h : deal shuf g = some g') : handFrame g g' :=
  foldlM_handFrame _ (fun _ _ _ hst => fillHand_handFrame hst) _ g g' h

/-- With both pools non-empty, `checkDecks` is the identity. -/
theorem checkDecks_noop {shuf : List Card → List Card} {g : GameState}
    (ha : g.decksAnswer ≠ []) (hq : g.decksQuestion ≠ []) :
    checkDecks shuf g = g := by
  have ha' : ¬ g.decksAnswer.length = 0 := by simpa using ha
  have hq' : ¬ g.decksQuestion.length = 0 := by simpa using hq
  simp [checkDecks, ha', hq']

theorem giveCards_nil (pid : Nat) (ps : List Player) : giveCards pid [] ps = ps := by
  refine (List.map_congr_left (fun p _ => ?_)).trans (List.map_id ps)
  by_cases hp : p.id = pid
  · rw [if_pos hp, List.append_nil]
    rfl
  · rw [if_neg hp]
    rfl

theorem giveCards_giveCards (pid : Nat) (xs ys : List Card) (ps : List Player) :
    giveCards pid ys (giveCards pid xs ps) = giveCards pid (xs ++ ys) ps := by
  simp only [giveCards, List.map_map]
  refine List.map_congr_left (fun p _ => ?_)
  by_cases hp : p.id = pid <;> simp [hp]

/-- Exact shape of dealing `n` cards to one player when the answer pool
already holds at least `n` cards (so no recycle happens): the dealt cards
are the first `n` pool cards, appended to the hand with their owner set. -/
theorem dealN_spec (shuf : List Card → List Card) (pid : Nat) :
    ∀ (n : Nat) (g : GameState), n ≤ g.decksAnswer.length →
      g.decksQuestion ≠ [] →
      dealN shuf pid n g = some { g with
        decksAnswer := g.decksAnswer.drop n,
        players := giveCards pid ((g.decksAnswer.take n).map (setOwner pid)) g.players }
  | 0, g, _, _ => by
    simp only [dealN, List.drop_zero, List.take_zero, List.map_nil, giveCards_nil,
      Option.some.injEq]
  | n + 1, g, hle, hq => by
    obtain ⟨c, t, hct⟩ : ∃ c t, g.decksAnswer = c :: t := by
      cases hda : g.decksAnswer with
      | nil => rw [hda] at hle; simp at hle
      | cons c t => exact ⟨c, t, rfl⟩
    have ha : g.decksAnswer ≠ [] := by rw [hct]; simp
    simp only [dealN, drawAnswer, checkDecks_noop ha hq, hct]
    have hrec := dealN_spec shuf pid n
      (mapPlayer { g with decksAnswer := t } pid
        (fun p => { p with cards := p.cards ++ [{ c with owner := some pid }] }))
      (by show n ≤ t.length
          rw [hct] at hle; simpa using Nat.lt_succ_iff.mp hle)
      (by show g.decksQuestion ≠ []
          exact hq)
    rw [hrec]
    simp only [Option.some.injEq]
    show { g with decksAnswer := t.drop n, players := giveCards pid ((t.take n).map (setOwner pid)) (giveCards pid [setOwner pid c] g.players) } = { g with decksAnswer := t.drop n, players := giveCards pid (setOwner pid c :: (t.take n).map (setOwner pid)) g.players }
    rw [giveCards_giveCards]
    rfl

/-- Rotating the czar changes only the czar reference and `isCzar` flags. -/
theorem setCzar_frame {g g' : GameState} (h : setCzar g = some g') :
    g' = { g with czarId := g'.czarId, players := g'.players } ∧
    g'.players.map identCore = g.players.map identCore := by
  simp only [setCzar] at h
  split at h
  · exact absurd h (by simp)
  · rename_i cz heq
    simp only [Option.some.injEq] at h
    subst h
    refine ⟨rfl, ?_⟩
    show (g.players.map fun p => if p.id = cz.id then { p with isCzar := true } else p).map
      identCore = g.players.map identCore
    rw [List.map_map]
    refine List.map_congr_left fun p _ => ?_
    by_cases hp : p.id = cz.id <;> simp [hp, identCore]

theorem qFrame_trans {g0 g1 g2 : GameState}
    (h1 : qFrame g0 g1) (h2 : qFrame g1 g2) : qFrame g0 g2 := by
  refine ⟨?_, h2.2.trans h1.2⟩
  conv_lhs => rw [h2.1, h1.1]

theorem qFrame_of_handFrame {g g' : GameState} (h : handFrame g g') : qFrame g g' := by
  have htq : g'.tableQuestion = g.tableQuestion := by rw [h.1]
  have hrs : g'.roundStarted = g.roundStarted := by rw [h.1]
  have hms : g'.msgs = g.msgs := by rw [h.1]
  refine ⟨?_, h.2⟩
  rw [htq, hrs, hms]
  conv_lhs => rw [h.1]

theorem playQuestion_qFrame {shuf : List Card → List Card} {now : Int}
    {g g' : GameState} (h : playQuestion shuf now g = some g') :
    qFrame g g' ∧ g'.tableQuestion.isSome = true := by
  simp only [playQuestion] at h
  split at h
  · exact absurd h (by simp)
  · rename_i card rest heq
    rw [Option.map_eq_some'] at h
    obtain ⟨gd, hgd, hg'⟩ := h
    subst hg'
    by_cases hdraw : 0 < card.draw
    · rw [if_pos hdraw] at hgd
      have hf := foldlM_handFrame _ (fun _ _ _ hx => dealN_handFrame shuf _ _ _ _ hx)
        _ _ _ hgd
      refine ⟨qFrame_trans (qFrame_of_handFrame (checkDecks_handFrame shuf g))
        (qFrame_trans ?_ (qFrame_trans (qFrame_of_handFrame hf) ⟨rfl, rfl⟩)), ?_⟩
      · exact ⟨rfl, rfl⟩
      · show gd.tableQuestion.isSome = true
        rw [hf.1]
        rfl
    · rw [if_neg hdraw] at hgd
      simp only [Option.some.injEq] at hgd
      subst hgd
      exact ⟨qFrame_trans (qFrame_of_handFrame (checkDecks_handFrame shuf g))
        ⟨rfl, rfl⟩, rfl⟩

/-- What survives a round advance: the score ledger, the idle counters and
the configuration are untouched; the roster is either deleted (stop) or
keeps every player's identity, score and inactivity count; the response
table is never filled; the resulting state is Stopped, Waiting, or a fresh
Playable round with the round counter advanced and a new active question. -/
theorem nextRound_frame {shuf : List Card → List Card} {now : Int}
    {g g' : GameState} (h : nextRound shuf now g = some g') :
    g'.points = g.points ∧ g'.idleCounts = g.idleCounts ∧
    g'.pointLimit = g.pointLimit ∧ g'.roundMinutes = g.roundMinutes ∧
    g'.idleLimit = g.idleLimit ∧
    (g'.players = [] ∨ g'.players.map identCore = g.players.map identCore) ∧
    (g'.tableAnswer = g.tableAnswer ∨ g'.tableAnswer = []) ∧
    (g'.state = GState.Stopped ∨ g'.state = GState.Waiting ∨
      (g'.state = GState.Playable ∧ g'.round = g.round + 1 ∧
        g'.tableQuestion.isSome = true)) := by
  simp only [nextRound] at h
  split at h
  · simp only [Option.some.injEq] at h
    subst h
    exact ⟨rfl, rfl, rfl, rfl, rfl, Or.inl rfl, Or.inr rfl, Or.inl rfl⟩
  · split at h
    · simp only [Option.some.injEq] at h
      subst h
      exact ⟨rfl, rfl, rfl, rfl, rfl, Or.inr rfl, Or.inl rfl, Or.inr (Or.inl rfl)⟩
    · split at h
      · exact absurd h (by simp)
      · rename_i g1 hsc
        split at h
        · exact absurd h (by simp)
        · rename_i g2 hdl
          split at h
          · exact absurd h (by simp)
          · rename_i g4 hpq
            simp only [Option.some.injEq] at h
            subst h
            obtain ⟨hf1, hid1⟩ := setCzar_frame hsc
            obtain ⟨hf2, hsh2⟩ := deal_handFrame hdl
            obtain ⟨⟨hf4, hsh4⟩, htq4⟩ := playQuestion_qFrame hpq
            have p4 : g4.points = g2.points := by rw [hf4]; rfl
            have p2 : g2.points = g1.points := by rw [hf2]
            have p1 : g1.points = g.points := by rw [hf1]
            have i4 : g4.idleCounts = g2.idleCounts := by rw [hf4]; rfl
            have i2 : g2.idleCounts = g1.idleCounts := by rw [hf2]
            have i1 : g1.idleCounts = g.idleCounts := by rw [hf1]
            have l4 : g4.pointLimit = g2.pointLimit := by rw [hf4]; rfl
            have l2 : g2.pointLimit = g1.pointLimit := by rw [hf2]
            have l1 : g1.pointLimit = g.pointLimit := by rw [hf1]
            have m4 : g4.roundMinutes = g2.roundMinutes := by rw [hf4]; rfl
            have m2 : g2.roundMinutes = g1.roundMinutes := by rw [hf2]
            have m1 : g1.roundMinutes = g.roundMinutes := by rw [hf1]
            have d4 : g4.idleLimit = g2.idleLimit := by rw [hf4]; rfl
            have d2 : g2.idleLimit = g1.idleLimit := by rw [hf2]
            have d1 : g1.idleLimit = g.idleLimit := by rw [hf1]
            have t4 : g4.tableAnswer = g2.tableAnswer := by rw [hf4]; rfl
            have t2 : g2.tableAnswer = g1.tableAnswer := by rw [hf2]
            have t1 : g1.tableAnswer = g.tableAnswer := by rw [hf1]
            have r4 : g4.round = g2.round := by rw [hf4]; rfl
            have r2 : g2.round = g1.round := by rw [hf2]
            have r1 : g1.round = g.round + 1 := by rw [hf1]
            refine ⟨p4.trans (p2.trans p1), i4.trans (i2.trans i1),
              l4.trans (l2.trans l1), m4.trans (m2.trans m1),
              d4.trans (d2.trans d1), Or.inr ?_, Or.inl (t4.trans (t2.trans t1)),
              Or.inr (Or.inr ⟨rfl, r4.trans (r2.trans r1), htq4⟩)⟩
            exact (identCore_of_shadow hsh4).trans
              ((identCore_of_shadow hsh2).trans hid1)

/-- Component facts about `clean` (all definitional). -/
theorem clean_points (g : GameState) : (clean g).points = g.points := rfl

theorem clean_state (g : GameState) : (clean g).state = GState.Started := rfl

theorem clean_tableAnswer (g : GameState) : (clean g).tableAnswer = [] := rfl

theorem clean_tableQuestion (g : GameState) : (clean g).tableQuestion = none := rfl

theorem clean_config (g : GameState) :
    (clean g).pointLimit = g.pointLimit ∧ (clean g).roundMinutes = g.roundMinutes ∧
    (clean g).idleLimit = g.idleLimit := ⟨rfl, rfl, rfl⟩

theorem clean_players (g : GameState) :
    (clean g).players = (g.players.filter (fun p => ! idleGE1 p.inactiveRounds)).map
      (fun p => { p with hasPlayed := false, hasDiscarded := false, isCzar := false }) := rfl

theorem clean_idleCounts (g : GameState) :
    (clean g).idleCounts =
      (g.players.filter (fun p => idleGE1 p.inactiveRounds)).foldl
        (fun m p => bumpIdle m p.nick) g.idleCounts := rfl

/-- After updating the ledger entry through the player reference, the first
matching entry carries the new value. -/
theorem updateLedgerPoints_lookup :
    ∀ (es : List PointsEntry) (oid v : Nat),
      (es.find? (fun e => decide (e.playerId = oid))).isSome = true →
      lookupLedger (updateLedgerPoints es oid v) oid = some v
  | [], _, _, h => by simp at h
  | e :: es, oid, v, h => by
    by_cases he : e.playerId = oid
    · simp [updateLedgerPoints, lookupLedger, he]
    · rw [List.find?_cons_of_neg _ (by simpa using he)] at h
      simp only [updateLedgerPoints, if_neg he]
      simp only [lookupLedger] at updateLedgerPoints_lookup ⊢
      rw [List.find?_cons_of_neg _ (by simpa using he)]
      exact updateLedgerPoints_lookup es oid v h

/-- Bumping a nick's idle counter increments exactly that entry. -/
theorem lookupIdle_bump_self : ∀ (m : List (String × Nat)) (nick : String),
    lookupIdle (bumpIdle m nick) nick = (lookupIdle m nick).map (· + 1)
  | [], _ => rfl
  | e :: t, nick => by
    by_cases h : e.1 = nick
    · simp [lookupIdle, bumpIdle, h]
    · simp only [lookupIdle, bumpIdle, List.map_cons, if_neg h]
      rw [List.find?_cons_of_neg _ (by simpa using h),
        List.find?_cons_of_neg _ (by simpa using h)]
      exact lookupIdle_bump_self t nick

/-- Bumping a different nick leaves an idle-counter entry unchanged. -/
theorem lookupIdle_bump_ne : ∀ (m : List (String × Nat)) (nick nick' : String),
    nick ≠ nick' →
    lookupIdle (bumpIdle m nick') nick = lookupIdle m nick
  | [], _, _, _ => rfl
  | e :: t, nick, nick', h => by
    by_cases he' : e.1 = nick'
    · have he : ¬ e.1 = nick := fun hc => h (hc.symm.trans he')
      simp only [lookupIdle, bumpIdle, List.map_cons, if_pos he']
      rw [List.find?_cons_of_neg _ (by simpa using he),
        List.find?_cons_of_neg _ (by simpa using he)]
      exact lookupIdle_bump_ne t nick nick' h
    · by_cases he : e.1 = nick
      · simp only [lookupIdle, bumpIdle, List.map_cons, if_neg he']
        rw [List.find?_cons_of_pos _ (by simpa using he),
          List.find?_cons_of_pos _ (by simpa using he)]
      · simp only [lookupIdle, bumpIdle, List.map_cons, if_neg he']
        rw [List.find?_cons_of_neg _ (by simpa using he),
          List.find?_cons_of_neg _ (by simpa using he)]
        exact lookupIdle_bump_ne t nick nick' h

/-- Folding the per-removal bump over players none of whom carry the nick
leaves the nick's counter unchanged. -/
theorem lookupIdle_foldl_notmem :
    ∀ (l : List Player) (m : List (String × Nat)) (nick : String),
      nick ∉ l.map (fun q => q.nick) →
      lookupIdle (l.foldl (fun m q => bumpIdle m q.nick) m) nick = lookupIdle m nick
  | [], _, _, _ => rfl
  | q :: t, m, nick, h => by
    simp only [List.map_cons, List.mem_cons, not_or] at h
    rw [List.foldl_cons, lookupIdle_foldl_notmem t _ nick h.2,
      lookupIdle_bump_ne m nick q.nick h.1]

/-- Folding the per-removal bump over a nick-distinct list of players that
contains `p` increments `p`'s counter exactly once. -/
theorem lookupIdle_foldl_mem :
    ∀ (l : List Player) (m : List (String × Nat)) (p : Player) (n : Nat),
      p ∈ l → (l.map (fun q => q.nick)).Nodup →
      lookupIdle m p.nick = some n →
      lookupIdle (l.foldl (fun m q => bumpIdle m q.nick) m) p.nick = some (n + 1)
  | [], _, _, _, hmem, _, _ => absurd hmem (List.not_mem_nil _)
  | q :: t, m, p, n, hmem, hnd, hlk => by
    rw [List.map_cons, List.nodup_cons] at hnd
    rw [List.foldl_cons]
    rcases List.mem_cons.mp hmem with rfl | hmt
    · rw [lookupIdle_foldl_notmem t _ p.nick hnd.1, lookupIdle_bump_self, hlk]
      rfl
    · have hne : p.nick ≠ q.nick := fun he =>
        hnd.1 (he ▸ List.mem_map_of_mem (fun r => r.nick) hmt)
      exact lookupIdle_foldl_mem t _ p n hmt hnd.2
        (by rw [lookupIdle_bump_ne m p.nick q.nick hne]; exact hlk)

/-- The messages `clean` appends: the czar-fled re-entry pair per removed
czar and the single removal announcement — in particular no `leftGame`. -/
theorem clean_msgs (g : GameState) :
    (clean g).msgs = g.msgs ++
      (((g.players.filter (fun p => idleGE1 p.inactiveRounds)).flatMap (fun p =>
          if g.state = GState.Played ∧ g.czarId = some p.id then
            [Msg.czarFled, Msg.invalidWinner]
          else [])) ++
        (if (g.players.filter (fun p => idleGE1 p.inactiveRounds)).length = 0 then []
         else [Msg.removedInactive
           ((g.players.filter (fun p => idleGE1 p.inactiveRounds)).map (fun p => p.nick))])) := by
  rw [← List.append_assoc]
  rfl

/-- Core of the cleanup: a roster player with at least one inactive round
is removed by `clean` (assuming distinct nicks) and the idle counter for
its nick, when present, is incremented exactly once. -/
theorem clean_removes (g : GameState) (p : Player) (n : Nat)
    (hmem : p ∈ g.players) (hidle : idleGE1 p.inactiveRounds = true)
    (hnick : (g.players.map (fun q => q.nick)).Nodup)
    (hcount : lookupIdle g.idleCounts p.nick = some n) :
    (∀ q ∈ (clean g).players, q.nick ≠ p.nick) ∧
    lookupIdle (clean g).idleCounts p.nick = some (n + 1) := by
  constructor
  · intro q hq hqe
    rw [clean_players] at hq
    obtain ⟨q0, hq0, rfl⟩ := List.mem_map.mp hq
    obtain ⟨hq0m, hq0z⟩ := List.mem_filter.mp hq0
    have hq0z' : idleGE1 q0.inactiveRounds = false := by simpa using hq0z
    have hqp : q0 = p :=
      List.inj_on_of_nodup_map hnick hq0m hmem (by simpa using hqe)
    rw [hqp, hidle] at hq0z'
    exact Bool.noConfusion hq0z'
  · rw [clean_idleCounts]
    exact lookupIdle_foldl_mem _ _ _ _
      (List.mem_filter.mpr ⟨hmem, hidle⟩)
      (hnick.sublist (List.Sublist.map (fun q : Player => q.nick)
        (List.filter_sublist g.players))) hcount

/-- Mapping a per-id update that keeps nicks fixed does not change the
roster's nick list. -/
theorem map_nick_if (l : List Player) (pid : Nat) (f : Player → Player)
    (hf : ∀ q : Player, (f q).nick = q.nick) :
    (l.map (fun q => if q.id = pid then f q else q)).map (fun q => q.nick) =
      l.map (fun q => q.nick) := by
  rw [List.map_map]
  apply List.map_congr_left
  intro q _
  show (if q.id = pid then f q else q).nick = q.nick
  by_cases h : q.id = pid
  · rw [if_pos h]
    exact hf q
  · rw [if_neg h]

/-- A `nextRound` success never reintroduces a nick that is absent from
the roster it starts from. -/
theorem nextRound_nick_absent {shuf : List Card → List Card} {now : Int}
    {g g' : GameState} (h : nextRound shuf now g = some g') (nk : String)
    (ha : ∀ q ∈ g.players, q.nick ≠ nk) : ∀ q ∈ g'.players, q.nick ≠ nk := by
  rcases (nextRound_frame h).2.2.2.2.2.1 with he | hi
  · intro q hq
    rw [he] at hq
    exact absurd hq (List.not_mem_nil q)
  · have h1 : ∀ l : List Player,
        l.map (fun q => q.nick) = (l.map identCore).map (fun c => c.2.1) := by
      intro l
      rw [List.map_map]
      rfl
    intro q hq
    have hm : q.nick ∈ g.players.map (fun r => r.nick) := by
      rw [h1, ← hi, ← h1]
      exact List.mem_map_of_mem _ hq
    obtain ⟨q0, hq0, he0⟩ := List.mem_map.mp hm
    rw [← he0]
    exact ha q0 hq0

/-- The award step only adds a point to the owner's roster object: the
roster is the pointwise point-bump of the original roster. -/
theorem awardWinner_players (oid newPts : Nat) (nk : String) (g : GameState) :
    (awardWinner oid newPts nk g).players =
      g.players.map (fun q => if q.id = oid then { q with points := q.points + 1 } else q) := rfl

/-- The award step leaves the idle counters untouched. -/
theorem awardWinner_idleCounts (oid newPts : Nat) (nk : String) (g : GameState) :
    (awardWinner oid newPts nk g).idleCounts = g.idleCounts := rfl

/-- Any successful winner selection by the internal caller on a `Played`
session with a valid index runs the cleanup: a roster player already
charged with an inactive round is gone from the resulting roster and its
idle counter has gone up by one. -/
theorem selectWinner_cleanup (shuf : List Card → List Card) (now : Int)
    (index : Nat) (gg gs : GameState) (b : Bool) (qc : Player) (k : Nat)
    (h : selectWinner shuf now index none gg = some (gs, b))
    (hst : gg.state = GState.Played)
    (hidx : index < gg.tableAnswer.length)
    (hqc : qc ∈ gg.players) (hir : idleGE1 qc.inactiveRounds = true)
    (hnick : (gg.players.map (fun q => q.nick)).Nodup)
    (hk : lookupIdle gg.idleCounts qc.nick = some k) :
    (∀ q ∈ gs.players, q.nick ≠ qc.nick) ∧
    lookupIdle gs.idleCounts qc.nick = some (k + 1) := by
  have hnp : ¬ gg.state = GState.Paused := by
    rw [hst]
    intro hc
    exact GState.noConfusion hc
  simp only [selectWinner, if_neg hnp, if_pos hst] at h
  rw [if_neg (by simp)] at h
  split at h
  · rename_i hnone
    have hlen := List.get?_eq_none.mp hnone
    omega
  · rename_i grp hgrp
    split at h
    · simp at h
    · rename_i c0 hc0
      split at h
      · simp at h
      · rename_i oid hoid
        split at h
        · simp at h
        · rename_i owner howner
          split at h
          · rw [Option.map_eq_some'] at h
            obtain ⟨g5, h5, he⟩ := h
            injection he with he1 he2
            subst he1
            have hqn : (if qc.id = oid then ({ qc with points := qc.points + 1 } : Player) else qc).nick = qc.nick := by
              split <;> rfl
            have hAW := clean_removes (awardWinner oid (owner.points + 1) owner.nick gg)
              (if qc.id = oid then { qc with points := qc.points + 1 } else qc) k
              (by rw [awardWinner_players]
                  exact List.mem_map_of_mem _ hqc)
              (by split <;> exact hir)
              (by rw [awardWinner_players, map_nick_if gg.players oid
                    (fun q => { q with points := q.points + 1 }) (fun q => rfl)]
                  exact hnick)
              (by rw [awardWinner_idleCounts, hqn]
                  exact hk)
            rw [hqn] at hAW
            have hfr := nextRound_frame h5
            exact ⟨nextRound_nick_absent h5 qc.nick hAW.1, by rw [hfr.2.1]; exact hAW.2⟩
          · simp at h

/-- Stripping messages ignores a `say`. -/
theorem stripMsgs_say (g : GameState) (m : Msg) :
    stripMsgs (say g m) = stripMsgs g := rfl

/-- Finding by id through a per-id update that keeps ids fixed returns the
updated player. -/
theorem find_map_id (ps : List Player) (pid : Nat) (f : Player → Player)
    (hf : ∀ p : Player, (f p).id = p.id) (pl : Player)
    (hfp : ps.find? (fun p => decide (p.id = pid)) = some pl) :
    (ps.map (fun p => if p.id = pid then f p else p)).find?
      (fun p => decide (p.id = pid)) = some (f pl) := by
  have hplid : pl.id = pid := by simpa using List.find?_some hfp
  rw [List.find?_map]
  have hco : ((fun p : Player => decide (p.id = pid)) ∘
      (fun p => if p.id = pid then f p else p)) =
      (fun p : Player => decide (p.id = pid)) := by
    funext p
    show decide ((if p.id = pid then f p else p).id = pid) = decide (p.id = pid)
    by_cases hp : p.id = pid
    · rw [if_pos hp, hf p]
    · rw [if_neg hp]
  rw [hco, hfp]
  simp only [Option.map_some']
  rw [if_pos hplid]

/-- Topping up the hand of a player found on the roster deals exactly the
shortfall. -/
theorem fillHand_found (shuf : List Card → List Card) (pid target : Nat)
    (g : GameState) (p : Player) (hfp : findPlayer g pid = some p) :
    fillHand shuf pid target g = dealN shuf pid (target - p.cards.length) g := by
  simp only [fillHand, hfp]

/-- A repeat discard by a player already flagged as having discarded is
turned away with only the reminder message. -/
theorem discard_rejected_already (shuf : List Card → List Card) (cs2 : List Nat)
    (pid : Nat) (gg : GameState) (p : Player)
    (hst : gg.state = GState.Playable)
    (hfp : findPlayer gg pid = some p)
    (hhand : p.cards.length ≠ 0)
    (hcz : p.isCzar = false)
    (hd : p.hasDiscarded = true) :
    discard shuf cs2 pid gg = some (say gg (.onlyDiscardOnce p.nick), false) := by
  have hnp : ¬ gg.state = GState.Paused := by
    rw [hst]
    exact fun hc => GState.noConfusion hc
  simp only [discard, hfp]
  rw [if_neg hnp, if_neg (not_or.mpr ⟨not_not_intro hst, hhand⟩),
    if_neg (by simp [hcz]), if_pos hd]

/-! The claims. -/

/-- C8: `checkDecks` resets an empty pool from its paired discard pile —
afterwards the pool holds exactly the N cards that were on the discard
pile, reshuffled by `shuf`, and the discard pile holds 0 — while a pool
that is non-empty is left unchanged together with its discard pile; this
holds for the answer pool and the question pool alike (`shuf` is assumed
to permute, here: preserve the length of, its input). -/
theorem c8_deck_reset (shuf : List Card → List Card)
    (hlen : ∀ l : List Card, (shuf l).length = l.length) (g : GameState) :
    (g.decksAnswer = [] →
      (checkDecks shuf g).decksAnswer = shuf g.discardsAnswer ∧
      (checkDecks shuf g).decksAnswer.length = g.discardsAnswer.length ∧
      (checkDecks shuf g).discardsAnswer = []) ∧
    (g.decksAnswer ≠ [] →
      (checkDecks shuf g).decksAnswer = g.decksAnswer ∧
      (checkDecks shuf g).discardsAnswer = g.discardsAnswer) ∧
    (g.decksQuestion = [] →
      (checkDecks shuf g).decksQuestion = shuf g.discardsQuestion ∧
      (checkDecks shuf g).decksQuestion.length = g.discardsQuestion.length ∧
      (checkDecks shuf g).discardsQuestion = []) ∧
    (g.decksQuestion ≠ [] →
      (checkDecks shuf g).decksQuestion = g.decksQuestion ∧
      (checkDecks shuf g).discardsQuestion = g.discardsQuestion) := by
  refine ⟨?_, ?_, ?_, ?_⟩
  · intro ha
    have h1 : g.decksAnswer.length = 0 := by simp [ha]
    by_cases h2 : g.decksQuestion.length = 0 <;> simp [checkDecks, h1, h2, hlen]
  · intro ha
    have h1 : ¬ g.decksAnswer.length = 0 := by simpa using ha
    by_cases h2 : g.decksQuestion.length = 0 <;> simp [checkDecks, h1, h2]
  · intro hq
    have h2 : g.decksQuestion.length = 0 := by simp [hq]
    by_cases h1 : g.decksAnswer.length = 0 <;> simp [checkDecks, h1, h2, hlen]
  · intro hq
    have h2 : ¬ g.decksQuestion.length = 0 := by simpa using hq
    by_cases h1 : g.decksAnswer.length = 0 <;> simp [checkDecks, h1, h2]

/-- Witness for C8: an empty answer pool with a two-card discard pile is
reset to exactly those two cards with an emptied discard pile, and the
non-empty question pool is untouched. -/
theorem c8_deck_reset_witness :
    (checkDecks id gDeckW).decksAnswer.length = gDeckW.discardsAnswer.length ∧
    (checkDecks id gDeckW).discardsAnswer = [] ∧
    (checkDecks id gDeckW).decksQuestion = gDeckW.decksQuestion ∧
    (checkDecks id gDeckW).discardsQuestion = gDeckW.discardsQuestion := by
  have h := c8_deck_reset id (fun _ => rfl) gDeckW
  exact ⟨(h.1 rfl).2.1, (h.1 rfl).2.2, (h.2.2.2 (by decide)).1, (h.2.2.2 (by decide)).2⟩

/-- C4: the czar rotation of `setCzar`. With the czar at roster position
`i` of a stable `K`-player roster, the new czar is the player at position
`(i + 1) % K` (advance by one, wrapping past the end); with no previous
czar, or with a previous czar whose roster position no longer exists
(they left), position 0 is chosen. `nextRound` performs exactly one such
rotation per round: when it reaches a new Playable round, the session's
czar reference is the one `setCzar` computes. -/
theorem c4_czar_rotation (g : GameState) :
    (∀ cid i, g.czarId = some cid →
      g.players.findIdx? (fun p => decide (p.id = cid)) = some i →
      ∃ g' cz, setCzar g = some g' ∧
        g.players.get? ((i + 1) % g.players.length) = some cz ∧
        g'.czarId = some cz.id) ∧
    (g.players ≠ [] → g.czarId = none →
      ∃ g' cz, setCzar g = some g' ∧ g.players.get? 0 = some cz ∧
        g'.czarId = some cz.id) ∧
    (∀ cid, g.players ≠ [] → g.czarId = some cid →
      g.players.findIdx? (fun p => decide (p.id = cid)) = none →
      ∃ g' cz, setCzar g = some g' ∧ g.players.get? 0 = some cz ∧
        g'.czarId = some cz.id) ∧
    (∀ shuf now g', nextRound shuf now g = some g' →
      g'.state = GState.Playable →
      ∃ gc, setCzar { g with round := g.round + 1 } = some gc ∧
        g'.czarId = gc.czarId) := by
  refine ⟨?_, ?_, ?_, ?_⟩
  · intro cid i hcz hidx
    have hi : i < g.players.length :=
      (List.findIdx?_eq_some_iff_findIdx_eq.1 hidx).1
    have htoNat : ((i : Int) + 1).toNat = i + 1 := by omega
    simp only [setCzar, hcz, hidx, htoNat]
    by_cases hlt : i + 1 < g.players.length
    · have hg : g.players.get? (i + 1) = some (g.players.get ⟨i + 1, hlt⟩) :=
        List.get?_eq_get hlt
      rw [hg]
      refine ⟨_, _, rfl, ?_, rfl⟩
      rw [Nat.mod_eq_of_lt hlt]
      exact hg
    · have hK : i + 1 = g.players.length := by omega
      have hnone : g.players.get? (i + 1) = none := List.get?_eq_none.2 (by omega)
      have h0 : 0 < g.players.length := by omega
      have hg : g.players.get? 0 = some (g.players.get ⟨0, h0⟩) := List.get?_eq_get h0
      rw [hnone]
      simp only [Option.orElse, Option.none_orElse]
      rw [hg]
      refine ⟨_, _, rfl, ?_, rfl⟩
      rw [hK, Nat.mod_self]
      exact hg
  · intro hne hcz
    have h0 : 0 < g.players.length := List.length_pos.2 hne
    have hg : g.players.get? 0 = some (g.players.get ⟨0, h0⟩) := List.get?_eq_get h0
    have htoNat : ((-1 : Int) + 1).toNat = 0 := rfl
    simp only [setCzar, hcz, htoNat]
    rw [hg]
    exact ⟨_, _, rfl, rfl, rfl⟩
  · intro cid hne hcz hidx
    have h0 : 0 < g.players.length := List.length_pos.2 hne
    have hg : g.players.get? 0 = some (g.players.get ⟨0, h0⟩) := List.get?_eq_get h0
    have htoNat : ((-1 : Int) + 1).toNat = 0 := rfl
    simp only [setCzar, hcz, hidx, htoNat]
    rw [hg]
    exact ⟨_, _, rfl, rfl, rfl⟩
  · intro shuf now g' h hst
    simp only [nextRound] at h
    split at h
    · simp only [Option.some.injEq] at h
      subst h
      exact absurd hst (by simp [stop])
    · split at h
      · simp only [Option.some.injEq] at h
        subst h
        exact absurd hst (by simp)
      · split at h
        · exact absurd h (by simp)
        · rename_i g1 hsc
          split at h
          · exact absurd h (by simp)
          · rename_i g2 hdl
            split at h
            · exact absurd h (by simp)
            · rename_i g4 hpq
              simp only [Option.some.injEq] at h
              subst h
              obtain ⟨hf2, -⟩ := deal_handFrame hdl
              obtain ⟨⟨hf4, -⟩, -⟩ := playQuestion_qFrame hpq
              have c4' : g4.czarId = g2.czarId := by rw [hf4]; rfl
              have c2' : g2.czarId = g1.czarId := by rw [hf2]
              exact ⟨g1, hsc, c4'.trans c2'⟩

/-- Witness for C4: on the three-player fixture with czar at position 0,
`setCzar` advances the czar to position 1 (player id 1), and from position
2 it wraps to position 0. -/
theorem c4_czar_rotation_witness :
    (∃ g' cz, setCzar gPlayableW = some g' ∧
      gPlayableW.players.get? ((0 + 1) % gPlayableW.players.length) = some cz ∧
      g'.czarId = some cz.id) ∧
    (∃ g' cz, setCzar { gPlayableW with czarId := some 2 } = some g' ∧
      { gPlayableW with czarId := some 2 }.players.get? ((2 + 1) %
        { gPlayableW with czarId := some 2 }.players.length) = some cz ∧
      g'.czarId = some cz.id) := by
  constructor
  · exact (c4_czar_rotation gPlayableW).1 0 0 rfl (by decide)
  · exact (c4_czar_rotation { gPlayableW with czarId := some 2 }).1 2 2 rfl (by decide)

/-- Reduction of `pause` outside the rejection branches. -/
theorem pause_snapshot (tp : Int) (g : GameState) (h1 : g.state ≠ GState.Paused)
    (h2 : g.state = GState.Playable ∨ g.state = GState.Played) :
    pause tp g = say { g with pauseSaved := g.state, pauseElapsed := tp - g.roundStarted, state := GState.Paused } Msg.nowPausedMsg := by
  simp only [pause]
  rw [if_neg h1, if_neg (by rcases h2 with h | h <;> simp [h])]

/-- Reduction of `resume` when the snapshotted state is not `Played`. -/
theorem resume_notPlayed (shuf : List Card → List Card) (tr : Int) (ridx : Nat)
    (gp : GameState) (hst : gp.state = GState.Paused)
    (hsv : gp.pauseSaved ≠ GState.Played) :
    resume shuf tr ridx gp = some (say { gp with roundStarted := tr - gp.pauseElapsed, state := gp.pauseSaved } Msg.resumedMsg) := by
  simp only [resume, say]
  rw [if_neg (by simp [hst]), if_neg hsv]

/-- Reduction of `resume` into `Played` while the czar is still present. -/
theorem resume_czarPresent (shuf : List Card → List Card) (tr : Int) (ridx : Nat)
    (gp : GameState) (hst : gp.state = GState.Paused)
    (hsv : gp.pauseSaved = GState.Played) (hcz : czarPresent gp = true) :
    resume shuf tr ridx gp = some (say { gp with roundStarted := tr - gp.pauseElapsed, state := gp.pauseSaved } Msg.resumedMsg) := by
  simp only [resume, say, czarPresent]
  simp only [czarPresent] at hcz
  rw [if_neg (by simp [hst]), if_pos hsv, hcz]
  simp

/-- C7: pause/resume round-trips the remaining turn time. Pausing a round
that started at `roundStarted` with limit `T = roundMinutes` minutes at
wall-clock `tp` (so `X = tp - roundStarted` elapsed) and resuming at `tr`
returns the session to the very state it was paused in, and the forced
timer action (forced reveal in Playable, forced pick in Played — both share
the guard `turnTimerFires`) triggers at a check at time `t` exactly when
`t - tr ≥ T - X`: exactly `T - X` of budget remains after the resume.
(The resume-into-Played case assumes the czar is still present; a czar who
quit during the pause triggers the auto-pick instead.) -/
theorem c7_pause_resume_roundtrip (shuf : List Card → List Card) (ridx : Nat)
    (g : GameState) (tp tr : Int)
    (hstate : g.state = GState.Playable ∨
      (g.state = GState.Played ∧ czarPresent g = true)) :
    (pause tp g).state = GState.Paused ∧
    ∃ gr, resume shuf tr ridx (pause tp g) = some gr ∧
      gr.state = g.state ∧
      ∀ t : Int, turnTimerFires t gr = true ↔
        60 * 1000 * (g.roundMinutes : Int) - (tp - g.roundStarted) ≤ t - tr := by
  have hnp : g.state ≠ GState.Paused := by
    rcases hstate with h | ⟨h, -⟩ <;> simp [h]
  have hp := pause_snapshot tp g hnp
    (by rcases hstate with h | ⟨h, -⟩ <;> [exact Or.inl h; exact Or.inr h])
  rw [hp]
  rcases hstate with hpl | ⟨hpd, hcz⟩
  · rw [resume_notPlayed shuf tr ridx (say { g with pauseSaved := g.state, pauseElapsed := tp - g.roundStarted, state := GState.Paused } Msg.nowPausedMsg) rfl (by simp [say, hpl])]
    refine ⟨rfl, _, rfl, rfl, ?_⟩
    intro t
    simp only [turnTimerFires, decide_eq_true_eq]
    show 60 * 1000 * (g.roundMinutes : Int) ≤ t - (tr - (tp - g.roundStarted)) ↔ _
    omega
  · rw [resume_czarPresent shuf tr ridx (say { g with pauseSaved := g.state, pauseElapsed := tp - g.roundStarted, state := GState.Paused } Msg.nowPausedMsg) rfl (by simp [say, hpd]) hcz]
    refine ⟨rfl, _, rfl, rfl, ?_⟩
    intro t
    simp only [turnTimerFires, decide_eq_true_eq]
    show 60 * 1000 * (g.roundMinutes : Int) ≤ t - (tr - (tp - g.roundStarted)) ↔ _
    omega

/-- Witness for C7: pausing the Playable fixture 7 seconds in (limit 10
minutes) and resuming at 20000 ms leaves the forced reveal exactly 593000
ms after the resume. -/
theorem c7_pause_resume_roundtrip_witness :
    (pause 7000 gPlayableW).state = GState.Paused ∧
    ∃ gr, resume id 20000 0 (pause 7000 gPlayableW) = some gr ∧
      gr.state = GState.Playable ∧
      turnTimerFires 613000 gr = true ∧ turnTimerFires 612999 gr = false := by
  obtain ⟨h1, gr, h2, h3, h4⟩ :=
    c7_pause_resume_roundtrip id 0 gPlayableW 7000 20000 (Or.inl rfl)
  refine ⟨h1, gr, h2, h3.trans rfl,
    (h4 613000).2 (by norm_num [gPlayableW, gPlayedW, baseG]), ?_⟩
  cases hb : turnTimerFires 612999 gr with
  | false => rfl
  | true => exact absurd ((h4 612999).1 hb) (by norm_num [gPlayableW, gPlayedW, baseG])

/-- A `nextRound` success preserves distinctness of the roster's
(nick, user, hostname) identity keys: the roster either empties or keeps
its identity cores. -/
theorem nextRound_key_nodup {shuf : List Card → List Card} {now : Int}
    {g g' : GameState} (h : nextRound shuf now g = some g')
    (hnd : (g.players.map (fun q => (q.nick, q.user, q.hostname))).Nodup) :
    (g'.players.map (fun q => (q.nick, q.user, q.hostname))).Nodup := by
  have hkey : ∀ l : List Player,
      l.map (fun q => (q.nick, q.user, q.hostname)) =
        (l.map identCore).map (fun c => (c.2.1, c.2.2.1, c.2.2.2.1)) := by
    intro l
    rw [List.map_map]
    rfl
  rcases (nextRound_frame h).2.2.2.2.2.1 with he | hi
  · rw [he]
    exact List.nodup_nil
  · rw [hkey, hi, ← hkey]
    exact hnd

/-- C5: during `clean`, every roster player with at least one consecutive
inactive round is removed from the roster silently — no `leftGame` leave
announcement ever appears among the newly emitted messages — and that
player's idle-ban counter (keyed by nick, assumed present, as `addPlayer`
establishes) increases by exactly one. Nicks are assumed distinct on the
roster, as the `addPlayer` duplicate check maintains. -/
theorem c5_idle_cleanup (g : GameState) (p : Player) (n : Nat)
    (hmem : p ∈ g.players) (hidle : idleGE1 p.inactiveRounds = true)
    (hnick : (g.players.map (fun q => q.nick)).Nodup)
    (hcount : lookupIdle g.idleCounts p.nick = some n) :
    (∀ q ∈ (clean g).players, q.nick ≠ p.nick) ∧
    lookupIdle (clean g).idleCounts p.nick = some (n + 1) ∧
    ∀ nk : String, Msg.leftGame nk ∈ (clean g).msgs → Msg.leftGame nk ∈ g.msgs := by
  refine ⟨(clean_removes g p n hmem hidle hnick hcount).1,
    (clean_removes g p n hmem hidle hnick hcount).2, ?_⟩
  · intro nk hm
    rw [clean_msgs] at hm
    rcases List.mem_append.mp hm with h1 | h2
    · exact h1
    · exfalso
      rcases List.mem_append.mp h2 with h3 | h4
      · obtain ⟨q, -, hq⟩ := List.mem_flatMap.mp h3
        split_ifs at hq <;> simp at hq
      · split_ifs at h4 <;> simp at h4

/-- Witness for C5: cleaning `gIdleW` (player `a` has one inactive round)
removes `a` from the roster with no leave announcement and raises the
idle counter for `a` from 0 to 1. -/
theorem c5_idle_cleanup_witness :
    (idleP ∈ gIdleW.players ∧ idleGE1 idleP.inactiveRounds = true ∧
      (gIdleW.players.map (fun q => q.nick)).Nodup ∧
      lookupIdle gIdleW.idleCounts idleP.nick = some 0) ∧
    (∀ q ∈ (clean gIdleW).players, q.nick ≠ idleP.nick) ∧
    lookupIdle (clean gIdleW).idleCounts idleP.nick = some (0 + 1) ∧
    ∀ nk : String, Msg.leftGame nk ∈ (clean gIdleW).msgs →
      Msg.leftGame nk ∈ gIdleW.msgs :=
  ⟨⟨by decide, by decide, by decide, by decide⟩,
    c5_idle_cleanup gIdleW idleP 0 (by decide) (by decide) (by decide) (by decide)⟩

/-- C9: `addPlayer` preserves the roster uniqueness invariant on the
(nickname, user id, host id) identity key — a key-distinct roster stays
key-distinct through every accepted or rejected call, including the
auto-started round — and a joiner whose identity key is already on the
roster is turned away with a failure flag and a completely unchanged
session. (The source keys its duplicate check on nick and hostname alone,
which is enough to exclude any matching triple.) -/
theorem c9_roster_unique (shuf : List Card → List Card) (now : Int) (p : Player)
    (g g' : GameState) (b : Bool)
    (hnd : (g.players.map (fun q => (q.nick, q.user, q.hostname))).Nodup)
    (h : addPlayer shuf now p g = some (g', b)) :
    (g'.players.map (fun q => (q.nick, q.user, q.hostname))).Nodup ∧
    ((∃ q ∈ g.players, q.nick = p.nick ∧ q.user = p.user ∧ q.hostname = p.hostname) →
      g' = g ∧ b = false) := by
  simp only [addPlayer] at h
  by_cases hfind :
      (g.players.find? (fun q => decide (q.nick = p.nick ∧ q.hostname = p.hostname))).isNone = true
  · rw [if_pos hfind] at h
    have hnone := Option.isNone_iff_eq_none.mp hfind
    have hnotin : ∀ q ∈ g.players, ¬ (q.nick = p.nick ∧ q.hostname = p.hostname) := by
      intro q hq
      have hfq := List.find?_eq_none.mp hnone q hq
      simpa using hfq
    have hx : ∀ pts : Nat,
        ((g.players ++ [{ p with points := pts }]).map
          (fun q : Player => (q.nick, q.user, q.hostname))).Nodup := by
      intro pts
      rw [List.map_append, List.nodup_append]
      refine ⟨hnd, List.nodup_singleton _, ?_⟩
      intro a ha hb
      rw [List.map_cons, List.map_nil, List.mem_singleton] at hb
      obtain ⟨q, hq, hqe⟩ := List.mem_map.mp ha
      subst hb
      have h1 : q.nick = p.nick := congrArg Prod.fst hqe
      have h3 : q.hostname = p.hostname := congrArg (fun t => t.2.2) hqe
      exact hnotin q hq ⟨h1, h3⟩
    refine ⟨?_, ?_⟩
    · split at h
      · split at h
        · rw [Option.map_eq_some'] at h
          obtain ⟨g3, h3, he⟩ := h
          injection he with he1 he2
          subst he1
          exact nextRound_key_nodup h3 (hx p.points)
        · simp only [Option.some.injEq, Prod.mk.injEq] at h
          obtain ⟨h1, -⟩ := h
          subst h1
          exact hx p.points
      · rename_i e hfe
        split at h
        · simp only [Option.some.injEq, Prod.mk.injEq] at h
          obtain ⟨h1, -⟩ := h
          subst h1
          exact hnd
        · split at h
          · rw [Option.map_eq_some'] at h
            obtain ⟨g3, h3, he⟩ := h
            injection he with he1 he2
            subst he1
            exact nextRound_key_nodup h3 (hx e.points)
          · simp only [Option.some.injEq, Prod.mk.injEq] at h
            obtain ⟨h1, -⟩ := h
            subst h1
            exact hx e.points
    · rintro ⟨q, hq, hqn, -, hqh⟩
      exact absurd ⟨hqn, hqh⟩ (hnotin q hq)
  · rw [if_neg hfind] at h
    simp only [Option.some.injEq, Prod.mk.injEq] at h
    obtain ⟨h1, h2⟩ := h
    subst h1
    subst h2
    exact ⟨hnd, fun _ => ⟨rfl, rfl⟩⟩

/-- Witness for C9: re-adding nick `a` from host `host` to the Playable
fixture is rejected, the session is untouched, and the identity keys stay
distinct. -/
theorem c9_roster_unique_witness :
    ((gPlayableW.players.map (fun q => (q.nick, q.user, q.hostname))).Nodup ∧
      addPlayer id 0 (mkPlayer 7 "a" [] false false) gPlayableW =
        some (gPlayableW, false) ∧
      (∃ q ∈ gPlayableW.players, q.nick = "a" ∧ q.user = "user" ∧ q.hostname = "host")) ∧
    (gPlayableW.players.map (fun q => (q.nick, q.user, q.hostname))).Nodup ∧
    ((∃ q ∈ gPlayableW.players, q.nick = "a" ∧ q.user = "user" ∧ q.hostname = "host") →
      gPlayableW = gPlayableW ∧ false = false) :=
  ⟨⟨by decide, by decide, by decide⟩,
    c9_roster_unique id 0 (mkPlayer 7 "a" [] false false) gPlayableW gPlayableW false
      (by decide) (by decide)⟩

/-- Counterexample for C10: in the Played fixture the czar `c` has never
successfully played, so its inactivity counter is still uninitialized
(player.js never sets it; only game.js:397 does). The winner check at
600000 ms times out and auto-selects a winner, but the czar's
`undefined++` stays NaN, the `>= 1` cleanup check stays false, and the
czar survives the cleanup with the idle counter for `c` still 0 — the
claimed removal does not happen. -/
theorem c10_czar_timeout_cex :
    (findPlayer gPlayedW 0).map (fun p => p.inactiveRounds) = some none ∧
    gPlayedW.czarId = some 0 ∧ gPlayedW.state = GState.Played ∧
    60 * 1000 * (gPlayedW.roundMinutes : Int) ≤ 600000 - gPlayedW.roundStarted ∧
    (winnerTimerCheck id 600000 0 gPlayedW).map
      (fun r => (r.players.map (fun p => p.nick), lookupIdle r.idleCounts "c")) =
      some (["c", "a", "b"], some 0) := by
  decide

/-- C10 (amended): a winner-selection timeout on a `Played` session — with
the czar on the distinct-nick roster, the random index valid, and the
czar's inactivity counter initialized by some earlier successful play —
first charges the czar one inactive round (the call literally reduces to
`selectWinner` on the czar-bumped session; an uninitialized counter would
instead stay NaN), and the cleanup run by that very selection then removes
the czar from the roster and increments the czar's idle-ban counter by
one, exactly as for a player who failed to play. A czar who has never
successfully played keeps an uninitialized counter and survives. -/
theorem c10_czar_timeout (shuf : List Card → List Card) (now : Int)
    (index : Nat) (g g' : GameState) (cid : Nat) (pcz : Player) (j k : Nat)
    (h : winnerTimerCheck shuf now index g = some g')
    (htime : 60 * 1000 * (g.roundMinutes : Int) ≤ now - g.roundStarted)
    (hst : g.state = GState.Played)
    (hcz : g.czarId = some cid)
    (hpc : pcz ∈ g.players) (hpid : pcz.id = cid)
    (hj : pcz.inactiveRounds = some j)
    (hidx : index < g.tableAnswer.length)
    (hnick : (g.players.map (fun q => q.nick)).Nodup)
    (hk : lookupIdle g.idleCounts pcz.nick = some k) :
    winnerTimerCheck shuf now index g =
      (selectWinner shuf now index none (mapPlayer (say g Msg.timeUpWinner) cid (fun p => { p with inactiveRounds := p.inactiveRounds.map (fun n => n + 1) }))).map (fun r => r.1) ∧
    (∀ q ∈ g'.players, q.nick ≠ pcz.nick) ∧
    lookupIdle g'.idleCounts pcz.nick = some (k + 1) := by
  have hred : winnerTimerCheck shuf now index g =
      (selectWinner shuf now index none (mapPlayer (say g Msg.timeUpWinner) cid (fun p => { p with inactiveRounds := p.inactiveRounds.map (fun n => n + 1) }))).map (fun r => r.1) := by
    simp only [winnerTimerCheck, if_pos htime, hcz]
  refine ⟨hred, ?_⟩
  rw [hred, Option.map_eq_some'] at h
  obtain ⟨pr, hp, he⟩ := h
  obtain ⟨gs, b⟩ := pr
  subst he
  have hmem : ({ pcz with inactiveRounds := pcz.inactiveRounds.map (fun n => n + 1) } : Player) ∈
      (mapPlayer (say g Msg.timeUpWinner) cid (fun p => { p with inactiveRounds := p.inactiveRounds.map (fun n => n + 1) })).players := by
    have h0 := List.mem_map_of_mem
      (fun q : Player => if q.id = cid then { q with inactiveRounds := q.inactiveRounds.map (fun n => n + 1) } else q) hpc
    simp only [] at h0
    rw [if_pos hpid] at h0
    exact h0
  have hnick2 : ((mapPlayer (say g Msg.timeUpWinner) cid (fun p => { p with inactiveRounds := p.inactiveRounds.map (fun n => n + 1) })).players.map (fun q => q.nick)).Nodup := by
    show ((g.players.map (fun q => if q.id = cid then { q with inactiveRounds := q.inactiveRounds.map (fun n => n + 1) } else q)).map (fun q => q.nick)).Nodup
    rw [map_nick_if g.players cid
      (fun q => { q with inactiveRounds := q.inactiveRounds.map (fun n => n + 1) }) (fun q => rfl)]
    exact hnick
  have hir : idleGE1 (pcz.inactiveRounds.map (fun n => n + 1)) = true := by
    rw [hj]
    simp [idleGE1]
  have hres := selectWinner_cleanup shuf now index _ gs b
    ({ pcz with inactiveRounds := pcz.inactiveRounds.map (fun n => n + 1) }) k hp hst hidx hmem
    hir hnick2 hk
  exact hres

/-- Witness for C10: on the Played fixture whose czar carries an
initialized counter (limit 10 minutes, round started at 0), a winner check
at 600000 ms times out; afterwards czar `c` is gone from the roster and
the idle counter for `c` reads 1. -/
theorem c10_czar_timeout_witness :
    ∃ g', winnerTimerCheck id 600000 0 gCzarW = some g' ∧
      (∀ q ∈ g'.players, q.nick ≠ "c") ∧
      lookupIdle g'.idleCounts "c" = some (0 + 1) := by
  obtain ⟨g0, hg0⟩ : ∃ g0, winnerTimerCheck id 600000 0 gCzarW = some g0 := by
    cases hE : winnerTimerCheck id 600000 0 gCzarW with
    | none => exact absurd hE (by decide)
    | some x => exact ⟨x, rfl⟩
  have hres := c10_czar_timeout id 600000 0 gCzarW g0 0 pCzarInit 0 0 hg0
    (by decide) (by decide) (by decide) (by decide) (by decide) (by decide)
    (by decide) (by decide) (by decide)
  exact ⟨g0, hg0, hres.2.1, hres.2.2⟩

/-- C3: a discard by a non-czar player holding at least one point who has
not discarded this round, in `Playable` state with a valid pick, succeeds:
the picked cards leave the hand, replacements are dealt so the hand
returns to its pre-discard size, the picked cards land on the answer
discard pile with their holder cleared, the player's score drops by
exactly one, and the player is flagged as having discarded; any second
discard attempt by that player in the same round is rejected with no
state change beyond the reminder message. -/
theorem c3_discard (shuf : List Card → List Card) (cs : List Nat) (pid : Nat)
    (g : GameState) (player : Player) (picked rest : List Card)
    (hst : g.state = GState.Playable)
    (hfp : findPlayer g pid = some player)
    (hcz : player.isCzar = false)
    (hdisc : player.hasDiscarded = false)
    (hpts : 1 ≤ player.points)
    (hhand : player.cards.length ≠ 0)
    (hpk : pickCards (if (uniqFirst cs).length = 0 then List.range player.cards.length else uniqFirst cs) player.cards = some (picked, rest))
    (hdeck : picked.length ≤ g.decksAnswer.length)
    (hq : g.decksQuestion ≠ []) :
    ∃ g', discard shuf cs pid g = some (g', true) ∧
      (∃ p', findPlayer g' pid = some p' ∧ p'.hasDiscarded = true ∧
        p'.points = player.points - 1 ∧
        p'.cards = rest ++ (g.decksAnswer.take picked.length).map (setOwner pid) ∧
        p'.cards.length = player.cards.length) ∧
      g'.discardsAnswer = g.discardsAnswer ++ picked.map (fun c => { c with owner := none }) ∧
      (∀ cs2 : List Nat, ∃ gr, discard shuf cs2 pid g' = some (gr, false) ∧
        stripMsgs gr = stripMsgs g') := by
  have hnp : ¬ g.state = GState.Paused := by
    rw [hst]
    exact fun hc => GState.noConfusion hc
  have hlen := pickCards_length hpk
  have hplen : (rest ++ (g.decksAnswer.take picked.length).map (setOwner pid)).length =
      player.cards.length := by
    rw [List.length_append, List.length_map, List.length_take, Nat.min_eq_left hdeck]
    omega
  have hfp1 : findPlayer (mapPlayer g pid (fun p => { p with cards := rest })) pid =
      some { player with cards := rest } :=
    find_map_id g.players pid (fun p : Player => { p with cards := rest })
      (fun p => rfl) player hfp
  have hfp4 := find_map_id _ pid
    (fun p : Player => { p with hasDiscarded := true, points := p.points - 1 })
    (fun p => rfl) _
    (find_map_id _ pid
      (fun p : Player => { p with cards := p.cards ++ (g.decksAnswer.take picked.length).map (setOwner pid) })
      (fun p => rfl) _ hfp1)
  have hfill := dealN_spec shuf pid picked.length
    (mapPlayer g pid (fun p => { p with cards := rest })) hdeck hq
  have hrl : ({ player with cards := rest } : Player).cards = rest := rfl
  refine Exists.intro (discardResult pid player picked rest g)
    (And.intro ?_ (And.intro ?_ (And.intro ?_ ?_)))
  · simp only [discard, hfp]
    rw [if_neg hnp, if_neg (not_or.mpr ⟨not_not_intro hst, hhand⟩),
      if_neg (by simp [hcz]), if_neg (by simp [hdisc]), if_neg (by omega)]
    simp only [hpk]
    rw [fillHand_found shuf pid (rest.length + picked.length)
      (mapPlayer g pid (fun p => { p with cards := rest })) { player with cards := rest } hfp1]
    rw [hrl, Nat.add_sub_cancel_left, hfill]
    rfl
  · exact ⟨_, hfp4, rfl, rfl, rfl, hplen⟩
  · rfl
  · intro cs2
    refine ⟨_, discard_rejected_already shuf cs2 pid _ _ hst hfp4 ?_ hcz rfl,
      stripMsgs_say _ _⟩
    show (rest ++ (g.decksAnswer.take picked.length).map (setOwner pid)).length ≠ 0
    rw [hplen]
    exact hhand

/-- Witness for C3: player `a` (two points, full hand of ten) discards the
cards at indexes 3 and 5; the hand returns to ten cards, the score drops to
one, and a repeat discard bounces. -/
theorem c3_discard_witness :
    (gDiscW.state = GState.Playable ∧ findPlayer gDiscW 1 = some pDisc ∧
      pDisc.isCzar = false ∧ pDisc.hasDiscarded = false ∧ 1 ≤ pDisc.points ∧
      pDisc.cards.length ≠ 0 ∧
      pickCards (if (uniqFirst [3, 5]).length = 0 then List.range pDisc.cards.length else uniqFirst [3, 5]) pDisc.cards = some (pickedW, restW) ∧
      pickedW.length ≤ gDiscW.decksAnswer.length ∧ gDiscW.decksQuestion ≠ []) ∧
    (∃ g', discard id [3, 5] 1 gDiscW = some (g', true) ∧
      (∃ p', findPlayer g' 1 = some p' ∧ p'.hasDiscarded = true ∧
        p'.points = pDisc.points - 1 ∧
        p'.cards = restW ++ (gDiscW.decksAnswer.take pickedW.length).map (setOwner 1) ∧
        p'.cards.length = pDisc.cards.length) ∧
      g'.discardsAnswer = gDiscW.discardsAnswer ++ pickedW.map (fun c => { c with owner := none }) ∧
      (∀ cs2 : List Nat, ∃ gr, discard id cs2 1 g' = some (gr, false) ∧
        stripMsgs gr = stripMsgs g')) :=
  ⟨⟨by decide, by decide, by decide, by decide, by decide, by decide, by decide,
      by decide, by decide⟩,
    c3_discard id [3, 5] 1 gDiscW pDisc pickedW restW (by decide) (by decide)
      (by decide) (by decide) (by decide) (by decide) (by decide) (by decide)
      (by decide)⟩

/-- Counterexample for C1: in the Playable fixture, player `a` is not the
czar, has not played, and submits exactly one index for a pick-1 prompt —
every condition of the claimed biconditional holds — yet the play is
rejected, because the single submitted index (15) is outside the
ten-card hand. The claimed acceptance condition is therefore not
sufficient. -/
theorem c1_play_acceptance_cex :
    gPlayableW.state = GState.Playable ∧
    findPlayer gPlayableW 1 = some (mkPlayer 1 "a" (handOf 1 10) false false) ∧
    (mkPlayer 1 "a" (handOf 1 10) false false).isCzar = false ∧
    (mkPlayer 1 "a" (handOf 1 10) false false).hasPlayed = false ∧
    gPlayableW.tableQuestion = some (qCard "q1" 1) ∧
    ([15] : List Nat).length = (qCard "q1" 1).pick ∧
    playCard id id 0 0 [15] 1 gPlayableW =
      some (say gPlayableW (Msg.invalidIndex "a"), false) := by
  decide

/-- C1 (amended): a play is accepted if and only if the state is Playable,
the actor's hand is non-empty, the actor is neither the czar nor already
played, the de-duplicated index count equals the active prompt's
pick-count, and every submitted index falls inside the hand. When accepted
(and the play does not complete the set of awaited players), the picked
cards move from the hand onto the table as one group with the player
flagged as played and the inactivity counter reset; in every other case
the call is rejected and, apart from the rejection message, nothing
changes. -/
theorem c1_play_acceptance (shuf : List Card → List Card)
    (shufG : List (List Card) → List (List Card)) (ridx : Nat) (now : Int)
    (cs : List Nat) (pid : Nat) (g : GameState) (player : Player) (q : Card)
    (hfp : findPlayer g pid = some player)
    (hqt : g.tableQuestion = some q)
    (hnp : g.state ≠ GState.Paused) :
    (∀ picked rest, pickCards (uniqFirst cs) player.cards = some (picked, rest) →
      g.state = GState.Playable → player.cards.length ≠ 0 → player.isCzar = false →
      player.hasPlayed = false → (uniqFirst cs).length = q.pick →
      checkAllPlayed (playResult pid player picked rest g) = false →
      playCard shuf shufG ridx now cs pid g =
        some (playResult pid player picked rest g, true)) ∧
    (¬(g.state = GState.Playable ∧ player.cards.length ≠ 0 ∧ player.isCzar = false ∧
        player.hasPlayed = false ∧ (uniqFirst cs).length = q.pick ∧
        (pickCards (uniqFirst cs) player.cards).isSome = true) →
      ∃ r, playCard shuf shufG ridx now cs pid g = some (r, false) ∧
        stripMsgs r = stripMsgs g) := by
  constructor
  · intro picked rest hpk hst hhand hcz hpl hcount hnc
    simp only [playCard, hfp]
    rw [if_neg hnp, if_neg (not_or.mpr ⟨not_not_intro hst, hhand⟩),
      if_neg (by simp [hcz]), if_neg (by simp [hpl])]
    simp only [hqt]
    rw [if_neg (not_not_intro hcount)]
    simp only [hpk]
    rw [if_neg (by simp [hnc])]
  · intro hnC
    simp only [playCard, hfp]
    rw [if_neg hnp]
    by_cases h1 : g.state ≠ GState.Playable ∨ player.cards.length = 0
    · rw [if_pos h1]
      exact ⟨_, rfl, stripMsgs_say _ _⟩
    · rw [if_neg h1]
      push_neg at h1
      by_cases h2 : player.isCzar = true
      · rw [if_pos h2]
        exact ⟨_, rfl, stripMsgs_say _ _⟩
      · rw [if_neg h2]
        by_cases h3 : player.hasPlayed = true
        · rw [if_pos h3]
          exact ⟨_, rfl, stripMsgs_say _ _⟩
        · rw [if_neg h3]
          simp only [hqt]
          by_cases h4 : (uniqFirst cs).length ≠ q.pick
          · rw [if_pos h4]
            exact ⟨_, rfl, stripMsgs_say _ _⟩
          · rw [if_neg h4]
            cases hpk : pickCards (uniqFirst cs) player.cards with
            | none =>
              simp only [hpk]
              exact ⟨_, rfl, stripMsgs_say _ _⟩
            | some pr =>
              exfalso
              apply hnC
              refine ⟨h1.1, h1.2, ?_, ?_, not_not.mp h4, by simp [hpk]⟩
              · simpa using h2
              · simpa using h3

/-- Witness for C1: player `a` submits index 3 against the pick-1 prompt of
the Playable fixture; the play is accepted and card 3 moves from the hand
onto the table as a fresh group. -/
theorem c1_play_acceptance_witness :
    playCard id id 0 0 [3] 1 gPlayableW =
      some (playResult 1 (mkPlayer 1 "a" (handOf 1 10) false false)
        [aCard "3" (some 1)] restW3 gPlayableW, true) := by
  have h := c1_play_acceptance id id 0 0 [3] 1 gPlayableW
    (mkPlayer 1 "a" (handOf 1 10) false false) (qCard "q1" 1)
    (by decide) (by decide) (by decide)
  exact h.1 [aCard "3" (some 1)] restW3 (by decide) (by decide) (by decide)
    (by decide) (by decide) (by decide) (by decide)

/-- Counterexample for C6: a user selecting a winner while the session is
merely `Started` — a command in the wrong state — is answered with the
failure flag but with the session returned exactly as it was: no rejection
message is emitted, contradicting the claim that every user-input error
reports one. -/
theorem c6_rejection_cex :
    baseG.state = GState.Started ∧
    GState.Started ≠ GState.Played ∧ GState.Started ≠ GState.Paused ∧
    selectWinner id 0 0 (some 5) baseG = some (baseG, false) := by
  decide

/-- C6 (amended): every rejected call — playCard, discard or selectWinner
returning the failure flag — leaves the session unchanged except for at
most one appended message (so hands, table, decks, piles, scores and
flags are untouched; an invalid pick removes no cards). The claimed
rejection message, however, is not always present: winner selection
outside the `Played` and `Paused` states is ignored silently, returning
the session exactly as it was. -/
theorem c6_rejections (shuf : List Card → List Card)
    (shufG : List (List Card) → List (List Card)) (ridx : Nat) (now : Int)
    (cs : List Nat) (pid index : Nat) (caller : Option Nat) (g : GameState) :
    (∀ r, playCard shuf shufG ridx now cs pid g = some (r, false) →
      stripMsgs r = stripMsgs g ∧ (r = g ∨ ∃ m, r = say g m)) ∧
    (∀ r, discard shuf cs pid g = some (r, false) →
      stripMsgs r = stripMsgs g ∧ (r = g ∨ ∃ m, r = say g m)) ∧
    (∀ r, selectWinner shuf now index caller g = some (r, false) →
      stripMsgs r = stripMsgs g ∧ (r = g ∨ ∃ m, r = say g m)) ∧
    (g.state ≠ GState.Played → g.state ≠ GState.Paused →
      selectWinner shuf now index caller g = some (g, false)) := by
  refine ⟨?_, ?_, ?_, ?_⟩
  · intro r h
    simp only [playCard] at h
    repeat' split at h
    all_goals first
    | exact Option.noConfusion h
    | (rw [Option.map_eq_some'] at h
       obtain ⟨a, -, ha⟩ := h
       exact Bool.noConfusion (congrArg Prod.snd ha))
    | (injection h with h1
       first
       | exact Bool.noConfusion (congrArg Prod.snd h1)
       | (have h2 : _ = r := congrArg Prod.fst h1
          subst h2
          first
          | exact ⟨rfl, Or.inl rfl⟩
          | exact ⟨stripMsgs_say _ _, Or.inr ⟨_, rfl⟩⟩))
  · intro r h
    simp only [discard] at h
    repeat' split at h
    all_goals first
    | exact Option.noConfusion h
    | (rw [Option.map_eq_some'] at h
       obtain ⟨a, -, ha⟩ := h
       exact Bool.noConfusion (congrArg Prod.snd ha))
    | (injection h with h1
       first
       | exact Bool.noConfusion (congrArg Prod.snd h1)
       | (have h2 : _ = r := congrArg Prod.fst h1
          subst h2
          first
          | exact ⟨rfl, Or.inl rfl⟩
          | exact ⟨stripMsgs_say _ _, Or.inr ⟨_, rfl⟩⟩))
  · intro r h
    simp only [selectWinner] at h
    repeat' split at h
    all_goals first
    | exact Option.noConfusion h
    | (rw [Option.map_eq_some'] at h
       obtain ⟨a, -, ha⟩ := h
       exact Bool.noConfusion (congrArg Prod.snd ha))
    | (injection h with h1
       first
       | exact Bool.noConfusion (congrArg Prod.snd h1)
       | (have h2 : _ = r := congrArg Prod.fst h1
          subst h2
          first
          | exact ⟨rfl, Or.inl rfl⟩
          | exact ⟨stripMsgs_say _ _, Or.inr ⟨_, rfl⟩⟩))
  · intro hnpl hnps
    simp only [selectWinner]
    rw [if_neg hnps, if_neg hnpl]

/-- Witness for C6: the czar's own attempt to play a card in the Playable
fixture is rejected; the rejected call leaves everything but the message
log unchanged. -/
theorem c6_rejections_witness :
    stripMsgs (say gPlayableW (Msg.czarCannotPlay "c")) = stripMsgs gPlayableW ∧
    (say gPlayableW (Msg.czarCannotPlay "c") = gPlayableW ∨
      ∃ m, say gPlayableW (Msg.czarCannotPlay "c") = say gPlayableW m) :=
  (c6_rejections id id 0 0 [0] 0 0 none gPlayableW).1
    (say gPlayableW (Msg.czarCannotPlay "c")) (by decide)

/-- Counterexample for C2: on the Played fixture the judge picks table
index 0; the call succeeds and the table is cleared of response groups,
but the session does not end up with "no active prompt card" — the next
round has already been dealt and its prompt (`q2`) is the active question. -/
theorem c2_winner_cex :
    gPlayedW.state = GState.Played ∧ 1 ≤ gPlayedW.tableAnswer.length ∧
    gPlayedW.czarId = some 0 ∧
    (selectWinner id 0 0 (some 0) gPlayedW).map
      (fun r => (r.2, r.1.tableAnswer.length, r.1.tableQuestion)) =
      some (true, 0, some (qCard "q2" 1)) := by
  decide

/-- C2 (amended): when the judge selects an existing response group in a
`Played` session (the group non-empty, its first card's holder on the
roster and in the ledger), the call succeeds, exactly one point is
reconciled into that owner's ledger entry, and the table is cleared of
response groups; the session then either stops at the point limit, waits
for players, or advances to the next round — in which case a fresh prompt
card is already active (not absent, as the original claim stated). -/
theorem c2_winner_award (shuf : List Card → List Card) (now : Int)
    (index : Nat) (g gs : GameState) (b : Bool) (cid oid : Nat)
    (grp : List Card) (c0 : Card) (owner : Player)
    (h : selectWinner shuf now index (some cid) g = some (gs, b))
    (hst : g.state = GState.Played)
    (hcz : g.czarId = some cid)
    (hidx : g.tableAnswer.get? index = some grp)
    (hc0 : grp.head? = some c0)
    (hoid : c0.owner = some oid)
    (howner : findPlayer g oid = some owner)
    (hguard : (g.points.find? (fun e => decide (e.playerId = oid))).isSome = true) :
    b = true ∧ gs.tableAnswer = [] ∧
    lookupLedger gs.points oid = some (owner.points + 1) ∧
    (gs.state = GState.Stopped ∨ gs.state = GState.Waiting ∨
      (gs.state = GState.Playable ∧ gs.round = g.round + 1 ∧
        gs.tableQuestion.isSome = true)) := by
  have hnp : ¬ g.state = GState.Paused := by
    rw [hst]
    exact fun hc => GState.noConfusion hc
  have howner1 : findPlayer { g with state := GState.RoundEnd } oid = some owner := howner
  simp only [selectWinner, if_neg hnp, if_pos hst] at h
  rw [if_neg (by simp [hcz])] at h
  simp only [hidx, hc0, hoid, howner1] at h
  rw [if_pos hguard] at h
  rw [Option.map_eq_some'] at h
  obtain ⟨g5, h5, he⟩ := h
  injection he with he1 he2
  subst he1
  have hfr := nextRound_frame h5
  refine ⟨he2.symm, ?_, ?_, ?_⟩
  · rcases hfr.2.2.2.2.2.2.1 with ht | ht
    · rw [ht]
      exact clean_tableAnswer _
    · exact ht
  · have hpts : g5.points = updateLedgerPoints g.points oid (owner.points + 1) := hfr.1
    rw [hpts]
    exact updateLedgerPoints_lookup g.points oid (owner.points + 1) hguard
  · rcases hfr.2.2.2.2.2.2.2 with hs | hs | ⟨ha, hb, hc⟩
    · exact Or.inl hs
    · exact Or.inr (Or.inl hs)
    · exact Or.inr (Or.inr ⟨ha, hb, hc⟩)

/-- Witness for C2: the judge of the Played fixture picks the group at
index 0 (owned by `a`); the award lands in the ledger, the table empties,
and the next round's prompt is active. -/
theorem c2_winner_award_witness :
    ∃ gs b, selectWinner id 0 0 (some 0) gPlayedW = some (gs, b) ∧ b = true ∧
      gs.tableAnswer = [] ∧ lookupLedger gs.points 1 = some 1 ∧
      (gs.state = GState.Stopped ∨ gs.state = GState.Waiting ∨
        (gs.state = GState.Playable ∧ gs.round = gPlayedW.round + 1 ∧
          gs.tableQuestion.isSome = true)) := by
  obtain ⟨pr, hpr⟩ : ∃ pr, selectWinner id 0 0 (some 0) gPlayedW = some pr := by
    cases hE : selectWinner id 0 0 (some 0) gPlayedW with
    | none => exact absurd hE (by decide)
    | some x => exact ⟨x, rfl⟩
  obtain ⟨gs, b⟩ := pr
  have hres := c2_winner_award id 0 0 gPlayedW gs b 0 1 [aCard "x" (some 1)]
    (aCard "x" (some 1)) (mkPlayer 1 "a" (handOf 1 10) false true) hpr
    (by decide) (by decide) (by decide) (by decide) (by decide) (by decide)
    (by decide)
  exact ⟨gs, b, hpr, hres.1, hres.2.1, hres.2.2.1, hres.2.2.2⟩

end CAH
